import Mathlib

set_option autoImplicit false

/-!
# mockSmith: route table, dispatcher, reload worker and endpoint form

A shallow embedding of `server/server.go` and of `Model.addEndpoint` in
`tui/tui.go`, together with the parts of the Go standard library that decide
what those functions do (`net/http`: header map, response writer, `ServeMux`;
`encoding/json`: the validity scanner; `fmt`: the `%d` scan).

Conventions.
* Go strings are Lean strings, Go byte slices are lists of `UInt8`.
* A function that can panic returns an `Outcome`: the state reached, and the
  panic value when it did not run to completion.
* The read/write lock `Server.mu`, `time.Sleep`, the log lines and the mux
  registrations are recorded as `Event`s in a trace, in program order.
-/

namespace MockSmith

/-! ## Go values -/

/-- A Go byte slice. -/
abbrev Bytes := List UInt8

/-- The conversion `[]byte(s)`: the UTF-8 encoding of the string. -/
def bytesOf (s : String) : Bytes := s.data.flatMap String.utf8EncodeChar

/-- Go `strings.HasPrefix(s, p)`. -/
def strings.HasPrefix (s p : String) : Bool := p.data.isPrefixOf s.data

/-- The test `s[len(s)-1] == '/'` on a non-empty string (false on the empty one). -/
def endsInSlash (s : String) : Bool := s.data.getLast? == some '/'

/-- Values a panic of the modelled code can carry. -/
inductive PanicValue
  /-- ServeMux.Handle: "http: invalid pattern" -/
  | invalidPattern
  /-- ServeMux.Handle: "http: multiple registrations for " + pattern -/
  | multipleRegistrations (pattern : String)
  /-- checkWriteHeaderCode: "invalid WriteHeader code" -/
  | invalidWriteHeaderCode (code : Int)
  deriving DecidableEq, Repr

/-- What one run of the program does that is not a change of its data: lock operations
on `Server.mu`, mux construction and registration, the delay sleep, the two log lines. -/
inductive Event
  | Lock
  | Unlock
  | RLock
  | RUnlock
  | NewServeMux
  | HandleFunc (pattern : String)
  | Sleep (nanos : Int)
  | LogRequest (method path : String) (status : Int)
  | LogReload (endpoints : Nat)
  deriving DecidableEq, Repr

/-- Result of running code that may panic: the state it reached, and the panic value if a
panic ended it. Deferred calls have already run on the state of a `panic`. -/
inductive Outcome (σ : Type)
  | ok (s : σ)
  | panic (v : PanicValue) (s : σ)
  deriving DecidableEq

namespace Outcome

variable {σ : Type}

/-- Sequencing: the next statement runs only when the previous one returned. -/
def bind (o : Outcome σ) (f : σ → Outcome σ) : Outcome σ :=
  match o with
  | ok s => f s
  | panic v s => panic v s

/-- A deferred call runs whether the body returned or panicked. -/
def deferred (o : Outcome σ) (g : σ → σ) : Outcome σ :=
  match o with
  | ok s => ok (g s)
  | panic v s => panic v (g s)

/-- The state reached. -/
def state : Outcome σ → σ
  | ok s => s
  | panic _ s => s

/-- The panic value, when the run panicked. -/
def panicValue? : Outcome σ → Option PanicValue
  | ok _ => none
  | panic v _ => some v

end Outcome

/-! ## package config -/

/-- Modelled from the spec: the Endpoint Definition of the data model, with the field names
under which `server.go` and `tui.go` read and write it (`ID`, `Method`, `Path`, `StatusCode`,
`Headers`, `Delay`, `Response`). The declaration in `config/config.go` has only `Method`,
`Path` and `Response`. `Headers` is a Go map; the list is the order in which one `range`
over it yields its entries. -/
structure Endpoint where
  ID : String := ""
  Method : String
  Path : String
  StatusCode : Int := 200
  Headers : List (String × String) := []
  Delay : Int := 0
  Response : Bytes := []
  deriving DecidableEq, Repr

/-- The configuration: `Endpoints []Endpoint`. -/
structure Config where
  Endpoints : List Endpoint := []
  deriving DecidableEq, Repr

/-- Modelled from the spec: `Config.GetEndpoints` (called by `server.go` and `tui.go`, not
declared in `config/config.go`) returns the ordered sequence of Endpoint Definitions. -/
def Config.GetEndpoints (c : Config) : List Endpoint := c.Endpoints

/-! ## package strconv -/

/-- Membership in the sign string "+-". -/
def isSign (r : Char) : Bool := r.toNat == 43 || r.toNat == 45

/-- Membership in the digit string "0123456789". -/
def isDecimalDigit (r : Char) : Bool := 48 ≤ r.toNat && r.toNat ≤ 57

/-- The value of a string of decimal digits. -/
def decimalValue (ds : List Char) : Nat :=
  ds.foldl (fun n d => 10 * n + (d.toNat - 48)) 0

/-- Go `strconv.ParseInt(tok, 10, 64)`: an optional sign, then decimal digits only, with a
value inside the 64-bit integers. -/
def ParseInt : List Char → Option Int
  | [] => none
  | c :: cs =>
    let neg := c.toNat == 45
    let s := if isSign c then cs else c :: cs
    if s = [] ∨ s.all isDecimalDigit = false then none
    else
      let n : Int := if neg then -(decimalValue s : Int) else (decimalValue s : Int)
      if n < -(2 : Int) ^ 63 ∨ (2 : Int) ^ 63 ≤ n then none else some n

/-- The wrap of an integer into the 64-bit signed range, as Go arithmetic on `int64`. -/
def wrapInt64 (n : Int) : Int :=
  (n + 9223372036854775808) % 18446744073709551616 - 9223372036854775808

/-! ## package net/http: header map and response writer -/

/-- Go `validHeaderFieldByte`: the token characters of RFC 7230. -/
def validHeaderFieldByte (c : Char) : Bool :=
  c.isAlphanum || c.toNat ∈ [33, 35, 36, 37, 38, 39, 42, 43, 45, 46, 94, 95, 96, 124, 126]

/-- The loop of `canonicalMIMEHeaderKey`: upper case at the start and after each dash,
lower case elsewhere. -/
def canonicalLoop : Bool → List Char → List Char
  | _, [] => []
  | upper, c :: cs =>
    let c := if upper && c.isLower then c.toUpper
             else if !upper && c.isUpper then c.toLower else c
    c :: canonicalLoop (c == '-') cs

/-- Go `textproto.CanonicalMIMEHeaderKey`: a key made of token characters only is put in
canonical case, any other key is returned unchanged. -/
def CanonicalMIMEHeaderKey (s : String) : String :=
  if s.data.all validHeaderFieldByte then ⟨canonicalLoop true s.data⟩ else s

/-- The type `http.Header`, restricted to what `Set` produces: one value per key. -/
abbrev Header := List (String × String)

/-- The map update `h[key] = value`. -/
def Header.insert : Header → String → String → Header
  | [], key, value => [(key, value)]
  | (k, v) :: h, key, value =>
    if k = key then (k, value) :: h else (k, v) :: Header.insert h key value

/-- Go `Header.Set`: the entry under the canonical form of `key` becomes `value`. -/
def Header.Set (h : Header) (key value : String) : Header :=
  Header.insert h (CanonicalMIMEHeaderKey key) value

/-- The value stored under the canonical form of `key`, if any (Go `Header.Get`, with
`none` where Go returns the empty string for an absent key). -/
def Header.Get (h : Header) (key : String) : Option String :=
  List.lookup (CanonicalMIMEHeaderKey key) h

/-- The state of the `http.ResponseWriter` that the server of `net/http` hands to the
handler (its type `response`): the header map the handler writes to; the interim (1xx)
status codes sent; once the final header is written, the status and the headers fixed by
it; the content length the handler declared, if any; and the body bytes the writer accepted.
What the server adds when it frames the response on the connection (`Date`,
`Content-Length`, `Connection`, `Transfer-Encoding`, `Trailer`) is not represented. -/
structure ResponseWriter where
  handlerHeader : Header := []
  interim : List Int := []
  wroteHeader : Bool := false
  status : Int := 0
  header : Header := []
  contentLength : Option Int := none
  body : Bytes := []
  deriving DecidableEq, Repr

/-- The request, as far as the program reads it: `r.Method` and `r.URL.Path`. -/
structure Request where
  Method : String
  Path : String
  deriving DecidableEq, Repr

/-- One request being served: the response writer and the trace of events so far. -/
structure Exec where
  w : ResponseWriter := {}
  trace : List Event := []
  deriving DecidableEq, Repr

/-- The call `w.Header().Set(key, value)`. -/
def Exec.HeaderSet (x : Exec) (key value : String) : Exec :=
  { x with w := { x.w with handlerHeader := x.w.handlerHeader.Set key value } }

/-- The map delete `delete(h, key)`. -/
def Header.delete (h : Header) (key : String) : Header :=
  h.filter (fun kv => kv.1 != key)

/-- The final header of the response: status, headers, and the declared content length.
A `Content-Length` header that is not a non-negative integer is deleted. -/
def ResponseWriter.finalHeader (w : ResponseWriter) (code : Int) : ResponseWriter :=
  match List.lookup "Content-Length" w.handlerHeader with
  | none =>
    { w with wroteHeader := true, status := code, header := w.handlerHeader }
  | some cl =>
    match ParseInt cl.data with
    | some v =>
      if 0 ≤ v then
        { w with wroteHeader := true, status := code, header := w.handlerHeader,
                 contentLength := some v }
      else
        { w with wroteHeader := true, status := code,
                 handlerHeader := w.handlerHeader.delete "Content-Length",
                 header := w.handlerHeader.delete "Content-Length" }
    | none =>
      { w with wroteHeader := true, status := code,
               handlerHeader := w.handlerHeader.delete "Content-Length",
               header := w.handlerHeader.delete "Content-Length" }

/-- Go `response.WriteHeader`: ignored when the final header was already written; panics
(`checkWriteHeaderCode`) on a code below 100 or above 999; a 1xx code other than 101 is
sent as an interim response and the final header is still to come; any other code fixes
the status and the headers of the response. -/
def Exec.WriteHeader (x : Exec) (code : Int) : Outcome Exec :=
  if x.w.wroteHeader then .ok x
  else if code < 100 ∨ code > 999 then .panic (.invalidWriteHeaderCode code) x
  else if 100 ≤ code ∧ code ≤ 199 ∧ code ≠ 101 then
    .ok { x with w := { x.w with interim := x.w.interim ++ [code] } }
  else .ok { x with w := x.w.finalHeader code }

/-- Go `bodyAllowedForStatus`: no body for 1xx, 204 and 304. -/
def bodyAllowedForStatus (status : Int) : Bool :=
  !((100 ≤ status && status ≤ 199) || status == 204 || status == 304)

/-- Go `response.Write` for the request `r` the writer belongs to: writes the final header
with status 200 if none was written yet; then the bytes are refused when the status allows
no body or when they exceed the declared content length, dropped when the request method is
HEAD, and appended to the body otherwise. -/
def Exec.Write (x : Exec) (r : Request) (b : Bytes) : Exec :=
  let w := if x.w.wroteHeader then x.w else x.w.finalHeader 200
  if b = [] then { x with w := w }
  else if bodyAllowedForStatus w.status = false then { x with w := w }
  else if (match w.contentLength with
           | some n => decide (n < ((w.body.length + b.length : Nat) : Int))
           | none => false) = true then { x with w := w }
  else if r.Method = "HEAD" then { x with w := w }
  else { x with w := { w with body := w.body ++ b } }

/-- Appends an event to the trace. -/
def Exec.emit (x : Exec) (e : Event) : Exec := { x with trace := x.trace ++ [e] }

/-- Go `time.Sleep(d)` for a duration of `d` nanoseconds: the goroutine is suspended when
`d` is positive; a zero or negative duration returns at once. -/
def Exec.Sleep (x : Exec) (d : Int) : Exec :=
  if d > 0 then x.emit (.Sleep d) else x

/-- The type `http.HandlerFunc`. -/
abbrev HandlerFunc := Request → Exec → Outcome Exec

/-! ## package net/http: ServeMux

The classic `ServeMux`: patterns are rooted paths; a pattern that ends in a slash names a
subtree and the longest matching one wins; registering a pattern twice panics. The mux of
Go 1.22 and later answers in the same way for patterns without method, host and wildcard.
Host-specific patterns and the request target `*` are not represented. -/

/-- Go `muxEntry`. -/
structure muxEntry where
  h : HandlerFunc
  pattern : String

/-- Go `ServeMux`: `m` is the map from pattern to entry, `es` the entries whose pattern
ends in a slash, longest pattern first. -/
structure ServeMux where
  m : List (String × muxEntry) := []
  es : List muxEntry := []

/-- The map read `mux.m[key]`. -/
def ServeMux.lookup (mux : ServeMux) (key : String) : Option muxEntry :=
  List.lookup key mux.m

/-- Go `appendSorted`: inserts the entry before the first one with a shorter pattern. -/
def appendSorted : List muxEntry → muxEntry → List muxEntry
  | [], e => [e]
  | x :: es, e =>
    if x.pattern.utf8ByteSize < e.pattern.utf8ByteSize then e :: x :: es
    else x :: appendSorted es e

/-- Go `ServeMux.Handle` (reached through `HandleFunc`): panics on the empty pattern and
on a pattern that is already registered. -/
def ServeMux.Handle (mux : ServeMux) (pattern : String) (handler : HandlerFunc) :
    Except PanicValue ServeMux :=
  if pattern = "" then .error .invalidPattern
  else if (mux.lookup pattern).isSome then .error (.multipleRegistrations pattern)
  else
    let e : muxEntry := { h := handler, pattern := pattern }
    .ok { m := (pattern, e) :: mux.m,
          es := if endsInSlash pattern then appendSorted mux.es e else mux.es }

/-- Go `ServeMux.match`: the exact pattern if registered, else the longest registered
subtree pattern that is a prefix of the path. -/
def ServeMux.match_ (mux : ServeMux) (path : String) : Option muxEntry :=
  match mux.lookup path with
  | some v => some v
  | none => mux.es.find? (fun e => strings.HasPrefix path e.pattern)

/-- The segments of `path.Clean` for a rooted path, innermost last: empty and "." segments
are dropped, ".." removes the segment before it, if there is one. `acc` is reversed. -/
def cleanSegments : List (List Char) → List (List Char) → List (List Char)
  | acc, [] => acc.reverse
  | acc, seg :: rest =>
    if seg = [] ∨ seg = ['.'] then cleanSegments acc rest
    else if seg = ['.', '.'] then cleanSegments acc.tail rest
    else cleanSegments (seg :: acc) rest

/-- Go `path.Clean` on a rooted path. -/
def pathClean (p : List Char) : List Char :=
  '/' :: List.intercalate ['/'] (cleanSegments [] (p.splitOn '/'))

/-- Go `cleanPath` of `net/http`: the canonical form of a request path, with the final
slash of the input kept. -/
def cleanPath (p : String) : String :=
  if p = "" then "/"
  else
    let p := if p.data.head? = some '/' then p.data else '/' :: p.data
    let np := pathClean p
    if p.getLast? = some '/' ∧ np ≠ ['/'] then
      (if p = np ++ ['/'] then ⟨p⟩ else ⟨np ++ ['/']⟩)
    else ⟨np⟩

/-- What `ServeMux.Handler` returns: a registered entry, a redirect handler
(301 Moved Permanently) towards a path, or the not-found handler. -/
inductive Route
  | entry (e : muxEntry)
  | redirect (path : String)
  | notFound

/-- Go `ServeMux.handler`, without host: the matching entry, else the not-found handler. -/
def ServeMux.handler (mux : ServeMux) (path : String) : Route :=
  match mux.match_ path with
  | some e => .entry e
  | none => .notFound

/-- Go `ServeMux.shouldRedirectRLocked`, without host: the path is not registered, the
path followed by a slash is, and the path does not end in a slash. -/
def ServeMux.shouldRedirect (mux : ServeMux) (path : String) : Bool :=
  if (mux.lookup path).isSome then false
  else if path = "" then false
  else if (mux.lookup (path ++ "/")).isSome then !endsInSlash path
  else false

/-- Go `ServeMux.Handler`: CONNECT requests are not canonicalised; any other request is
redirected to `path/` when only that is registered, and to its clean path when it is not
clean. -/
def ServeMux.Handler (mux : ServeMux) (r : Request) : Route :=
  if r.Method = "CONNECT" then
    if mux.shouldRedirect r.Path then .redirect (r.Path ++ "/")
    else mux.handler r.Path
  else
    let path := cleanPath r.Path
    if mux.shouldRedirect path then .redirect (path ++ "/")
    else if path ≠ r.Path then .redirect path
    else mux.handler r.Path

/-- Go `http.Redirect` as the mux uses it, as far as the `Location` header goes. The status
written is 301 (Moved Permanently), the code of the classic mux; the HTML body written for
GET requests and the escaping of the target are left out. -/
def Redirect (x : Exec) (path : String) : Outcome Exec :=
  (x.HeaderSet "Location" path).WriteHeader 301

/-- Go `http.NotFound`: the plain-text 404 of the library. -/
def NotFound (r : Request) (x : Exec) : Outcome Exec :=
  let x := x.HeaderSet "Content-Type" "text/plain; charset=utf-8"
  let x := x.HeaderSet "X-Content-Type-Options" "nosniff"
  (x.WriteHeader 404).bind (fun x => .ok (x.Write r (bytesOf "404 page not found\n")))

/-- Go `ServeMux.ServeHTTP`: runs the handler that `Handler` returns. -/
def ServeMux.ServeHTTP (mux : ServeMux) (r : Request) (x : Exec) : Outcome Exec :=
  match mux.Handler r with
  | .entry e => e.h r x
  | .redirect path => Redirect x path
  | .notFound => NotFound r x

/-! ## package server -/

/-- The struct `Server`: the configuration and the route table. The lock `mu` is
represented by its events in the trace; the channel is an argument of `watchForUpdates`. -/
structure Server where
  config : Config
  mux : ServeMux := {}

/-- The state that `setupRoutes` and `watchForUpdates` work on: the server and the trace. -/
abbrev ServerState := Server × List Event

/-- Method `Server.ServeHTTP`: CORS headers, the OPTIONS short cut, then the mux under the
read lock (released by the deferred `RUnlock`). -/
def Server.ServeHTTP (s : Server) (r : Request) (x : Exec) : Outcome Exec :=
  let x := x.HeaderSet "Access-Control-Allow-Origin" "*"
  let x := x.HeaderSet "Access-Control-Allow-Methods" "GET, POST, PUT, DELETE, PATCH, OPTIONS"
  let x := x.HeaderSet "Access-Control-Allow-Headers" "Content-Type, Authorization"
  if r.Method = "OPTIONS" then
    x.WriteHeader 200
  else
    let x := x.emit .RLock
    (s.mux.ServeHTTP r x).deferred (fun x => x.emit .RUnlock)

/-- The body that `json.NewEncoder(w).Encode` writes for the map of the default handler:
the JSON object, followed by the newline that `Encode` appends. -/
def notFoundBody : Bytes :=
  bytesOf "\x7b\"error\":\"Endpoint not found. Add it via the TUI!\"\x7d" ++ [10]

/-- The default handler that `setupRoutes` registers under "/". -/
def defaultHandler : HandlerFunc := fun r x =>
  let x := x.HeaderSet "Content-Type" "application/json"
  (x.WriteHeader 404).bind (fun x => .ok (x.Write r notFoundBody))

/-- The closure `handler` that `addRoute` builds for an endpoint. -/
def addRoute.handler (endpoint : Endpoint) : HandlerFunc := fun r x =>
  if r.Method ≠ endpoint.Method then
    x.WriteHeader 405
  else
    let x := if endpoint.Delay > 0 then
        x.Sleep (wrapInt64 (wrapInt64 endpoint.Delay * 1000000)) else x
    let x := x.HeaderSet "Content-Type" "application/json"
    let x := endpoint.Headers.foldl (fun x kv => x.HeaderSet kv.1 kv.2) x
    let x := x.emit (.LogRequest endpoint.Method endpoint.Path endpoint.StatusCode)
    (x.WriteHeader endpoint.StatusCode).bind (fun x => .ok (x.Write r endpoint.Response))

/-- The call `s.mux.HandleFunc(pattern, handler)`. -/
def Server.HandleFunc (pattern : String) (handler : HandlerFunc) (st : ServerState) :
    Outcome ServerState :=
  let t := st.2 ++ [.HandleFunc pattern]
  match st.1.mux.Handle pattern handler with
  | .error v => .panic v (st.1, t)
  | .ok mux => .ok ({ st.1 with mux := mux }, t)

/-- Method `Server.addRoute`. -/
def Server.addRoute (endpoint : Endpoint) (st : ServerState) : Outcome ServerState :=
  Server.HandleFunc endpoint.Path (addRoute.handler endpoint) st

/-- The loop of `setupRoutes` over `s.config.GetEndpoints()`: one `addRoute` per endpoint,
in order; a panic ends the loop. -/
def Server.addRoutes : List Endpoint → ServerState → Outcome ServerState
  | [], st => .ok st
  | endpoint :: rest, st => (Server.addRoute endpoint st).bind (Server.addRoutes rest)

/-- Method `Server.setupRoutes`: under the write lock, a fresh mux replaces `s.mux`, every
endpoint is registered on it, then the default handler; the deferred `Unlock` runs last. -/
def Server.setupRoutes (st : ServerState) : Outcome ServerState :=
  let st : ServerState := ({ st.1 with mux := {} }, st.2 ++ [.Lock, .NewServeMux])
  let body := (Server.addRoutes st.1.config.GetEndpoints st).bind
    (Server.HandleFunc "/" defaultHandler)
  body.deferred (fun st => (st.1, st.2 ++ [.Unlock]))

/-- One iteration of the loop of `Server.watchForUpdates`, for a received configuration. -/
def Server.reload (cfg : Config) (st : ServerState) : Outcome ServerState :=
  let st : ServerState := ({ st.1 with config := cfg }, st.2)
  (Server.setupRoutes st).bind
    (fun st => .ok (st.1, st.2 ++ [.LogReload cfg.GetEndpoints.length]))

/-- Method `Server.watchForUpdates`: the configurations received on the channel, in order,
until the channel is closed. -/
def Server.watchForUpdates : List Config → ServerState → Outcome ServerState
  | [], st => .ok st
  | cfg :: rest, st => (Server.reload cfg st).bind (Server.watchForUpdates rest)

/-- The first lines of `Start`: a server with the given configuration and an empty mux,
then `setupRoutes`. -/
def Start (cfg : Config) : Outcome ServerState :=
  Server.setupRoutes ({ config := cfg, mux := {} }, [])

/-- Dispatch of one request against the route table built from a configuration: `Start`
builds the table, the listener then hands the request to `Server.ServeHTTP` with a fresh
response writer. A panic of the build is the outcome when there is one. -/
def dispatch (cfg : Config) (r : Request) : Outcome Exec :=
  match Start cfg with
  | .ok st => st.1.ServeHTTP r {}
  | .panic v _ => .panic v {}

/-! ## package encoding/json: the validity scanner

`json.Unmarshal` first runs `checkValid` over the whole input; the scanner is the state
machine of `scanner.go`. The opcode a step returns is left out: `checkValid` only tests it
for `scanError`, and a step returns that exactly when it sets `err`, except in
`stateEndTop`, where the error is reported by the next step or by `eof`. -/

/-- The step functions of the scanner, by name. -/
inductive ScanStep
  | stateBeginValueOrEmpty | stateBeginValue | stateBeginStringOrEmpty | stateBeginString
  | stateEndValue | stateEndTop
  | stateInString | stateInStringEsc
  | stateInStringEscU | stateInStringEscU1 | stateInStringEscU12 | stateInStringEscU123
  | stateNeg | state1 | state0 | stateDot | stateDot0 | stateE | stateESign | stateE0
  | stateT | stateTr | stateTru
  | stateF | stateFa | stateFal | stateFals
  | stateN | stateNu | stateNul
  | stateError
  deriving DecidableEq, Repr

/-- The entries of the parse-state stack. -/
inductive ParseState
  | parseObjectKey | parseObjectValue | parseArrayValue
  deriving DecidableEq, Repr

/-- Go `scanner`: the current step function, whether the top-level value has ended, the
parse-state stack (innermost first), and whether an error was recorded. -/
structure scanner where
  step : ScanStep := .stateBeginValue
  endTop : Bool := false
  parseState : List ParseState := []
  err : Bool := false
  deriving DecidableEq, Repr

/-- The constant `maxNestingDepth`. -/
def maxNestingDepth : Nat := 10000

/-- Go `isSpace` of the scanner: blank, tab, carriage return, line feed. -/
def isSpace (c : UInt8) : Bool := c == 32 || c == 9 || c == 13 || c == 10

/-- The test `'0' <= c && c <= '9'`. -/
def isDigit (c : UInt8) : Bool := 48 ≤ c && c ≤ 57

/-- The test for a hexadecimal digit in a `\u` escape. -/
def isHex (c : UInt8) : Bool :=
  (48 ≤ c && c ≤ 57) || (97 ≤ c && c ≤ 102) || (65 ≤ c && c ≤ 70)

namespace scanner

/-- Go `scanner.error`: records the error; every later step fails. -/
def error (s : scanner) : scanner := { s with step := .stateError, err := true }

/-- Go `scanner.pushParseState`, after the step function was set to `next`. -/
def pushParseState (s : scanner) (newParseState : ParseState) (next : ScanStep) : scanner :=
  let s := { s with step := next, parseState := newParseState :: s.parseState }
  if s.parseState.length ≤ maxNestingDepth then s else s.error

/-- Go `scanner.popParseState`. -/
def popParseState (s : scanner) : scanner :=
  let rest := s.parseState.tail
  if rest.length = 0 then { s with parseState := rest, step := .stateEndTop, endTop := true }
  else { s with parseState := rest, step := .stateEndValue }

/-- Go `stateEndTop`: only white space may follow the top-level value. -/
def stateEndTop (s : scanner) (c : UInt8) : scanner :=
  if !isSpace c then s.error else s

/-- Go `stateEndValue`: after a value, the byte that continues or closes the enclosing
object or array. -/
def stateEndValue (s : scanner) (c : UInt8) : scanner :=
  match s.parseState with
  | [] => stateEndTop { s with step := .stateEndTop, endTop := true } c
  | ps :: rest =>
    if isSpace c then { s with step := .stateEndValue }
    else
      match ps with
      | .parseObjectKey =>
        if c == 58 then { s with parseState := .parseObjectValue :: rest, step := .stateBeginValue }
        else s.error
      | .parseObjectValue =>
        if c == 44 then { s with parseState := .parseObjectKey :: rest, step := .stateBeginString }
        else if c == 125 then s.popParseState
        else s.error
      | .parseArrayValue =>
        if c == 44 then { s with step := .stateBeginValue }
        else if c == 93 then s.popParseState
        else s.error

/-- Go `stateBeginValue`. -/
def stateBeginValue (s : scanner) (c : UInt8) : scanner :=
  if isSpace c then s
  else if c == 123 then s.pushParseState .parseObjectKey .stateBeginStringOrEmpty
  else if c == 91 then s.pushParseState .parseArrayValue .stateBeginValueOrEmpty
  else if c == 34 then { s with step := .stateInString }
  else if c == 45 then { s with step := .stateNeg }
  else if c == 48 then { s with step := .state0 }
  else if c == 116 then { s with step := .stateT }
  else if c == 102 then { s with step := .stateF }
  else if c == 110 then { s with step := .stateN }
  else if 49 ≤ c && c ≤ 57 then { s with step := .state1 }
  else s.error

/-- Go `stateBeginValueOrEmpty`: after the opening bracket of an array. -/
def stateBeginValueOrEmpty (s : scanner) (c : UInt8) : scanner :=
  if isSpace c then s
  else if c == 93 then stateEndValue s c
  else stateBeginValue s c

/-- Go `stateBeginString`: before an object key. -/
def stateBeginString (s : scanner) (c : UInt8) : scanner :=
  if isSpace c then s
  else if c == 34 then { s with step := .stateInString }
  else s.error

/-- Go `stateBeginStringOrEmpty`: after the opening brace of an object. -/
def stateBeginStringOrEmpty (s : scanner) (c : UInt8) : scanner :=
  if isSpace c then s
  else if c == 125 then
    stateEndValue { s with parseState := .parseObjectValue :: s.parseState.tail } c
  else stateBeginString s c

/-- Go `state0`: after the integer part of a number. -/
def state0 (s : scanner) (c : UInt8) : scanner :=
  if c == 46 then { s with step := .stateDot }
  else if c == 101 || c == 69 then { s with step := .stateE }
  else stateEndValue s c

/-- Go `stateESign`: after the sign of an exponent. -/
def stateESign (s : scanner) (c : UInt8) : scanner :=
  if isDigit c then { s with step := .stateE0 } else s.error

/-- One call `s.step(s, c)`. -/
def run (s : scanner) (c : UInt8) : scanner :=
  match s.step with
  | .stateBeginValueOrEmpty => stateBeginValueOrEmpty s c
  | .stateBeginValue => stateBeginValue s c
  | .stateBeginStringOrEmpty => stateBeginStringOrEmpty s c
  | .stateBeginString => stateBeginString s c
  | .stateEndValue => stateEndValue s c
  | .stateEndTop => stateEndTop s c
  | .stateInString =>
    if c == 34 then { s with step := .stateEndValue }
    else if c == 92 then { s with step := .stateInStringEsc }
    else if c < 32 then s.error
    else s
  | .stateInStringEsc =>
    if c == 98 || c == 102 || c == 110 || c == 114 || c == 116 || c == 92 || c == 47 || c == 34
    then { s with step := .stateInString }
    else if c == 117 then { s with step := .stateInStringEscU }
    else s.error
  | .stateInStringEscU => if isHex c then { s with step := .stateInStringEscU1 } else s.error
  | .stateInStringEscU1 => if isHex c then { s with step := .stateInStringEscU12 } else s.error
  | .stateInStringEscU12 => if isHex c then { s with step := .stateInStringEscU123 } else s.error
  | .stateInStringEscU123 => if isHex c then { s with step := .stateInString } else s.error
  | .stateNeg =>
    if c == 48 then { s with step := .state0 }
    else if 49 ≤ c && c ≤ 57 then { s with step := .state1 }
    else s.error
  | .state1 => if isDigit c then { s with step := .state1 } else state0 s c
  | .state0 => state0 s c
  | .stateDot => if isDigit c then { s with step := .stateDot0 } else s.error
  | .stateDot0 =>
    if isDigit c then s
    else if c == 101 || c == 69 then { s with step := .stateE }
    else stateEndValue s c
  | .stateE =>
    if c == 43 || c == 45 then { s with step := .stateESign } else stateESign s c
  | .stateESign => stateESign s c
  | .stateE0 => if isDigit c then s else stateEndValue s c
  | .stateT => if c == 114 then { s with step := .stateTr } else s.error
  | .stateTr => if c == 117 then { s with step := .stateTru } else s.error
  | .stateTru => if c == 101 then { s with step := .stateEndValue } else s.error
  | .stateF => if c == 97 then { s with step := .stateFa } else s.error
  | .stateFa => if c == 108 then { s with step := .stateFal } else s.error
  | .stateFal => if c == 115 then { s with step := .stateFals } else s.error
  | .stateFals => if c == 101 then { s with step := .stateEndValue } else s.error
  | .stateN => if c == 117 then { s with step := .stateNu } else s.error
  | .stateNu => if c == 108 then { s with step := .stateNul } else s.error
  | .stateNul => if c == 108 then { s with step := .stateEndValue } else s.error
  | .stateError => s

/-- Go `scanner.eof`: true when the input seen so far is one complete value. -/
def eof (s : scanner) : Bool :=
  if s.err then false
  else if s.endTop then true
  else (s.run 32).endTop

end scanner

/-- Go `checkValid`: true when it returns a nil error, that is when the bytes are
syntactically valid JSON. -/
def checkValid (data : Bytes) : Bool :=
  (data.foldl scanner.run {}).eof

/-- The bytes without the JSON white space at their start and end. -/
def trimSpace (data : Bytes) : Bytes :=
  ((data.dropWhile isSpace).reverse.dropWhile isSpace).reverse

/-- Go `json.Unmarshal(data, &js)` for `js` of type `json.RawMessage`: an error when
`checkValid` fails; otherwise `js` receives the bytes of the value, which are the input
without the white space around the value. -/
def Unmarshal (data : Bytes) : Except String Bytes :=
  if checkValid data then .ok (trimSpace data) else .error "invalid JSON"

/-! ## package fmt: `Sscanf` with the format `%d` -/

/-- Go `isSpace` of `fmt`: the white-space code points. -/
def fmtIsSpace (r : Char) : Bool :=
  let n := r.toNat
  (9 ≤ n && n ≤ 13) || n == 32 || n == 133 || n == 160 || n == 5760 ||
  (8192 ≤ n && n ≤ 8202) || n == 8232 || n == 8233 || n == 8239 || n == 8287 || n == 12288

/-- Go `ss.SkipSpace` under `Sscanf`: skips white space; a line feed is an error (`none`). -/
def SkipSpace : List Char → Option (List Char)
  | [] => some []
  | r :: rest =>
    if r.toNat = 10 then none
    else if fmtIsSpace r then SkipSpace rest
    else some (r :: rest)

/-- Go `ss.scanInt` for the verb `d`: white space, an optional sign, then decimal digits
(the digit string "0123456789" that `getBase` returns for `d`) as far as they go; what
follows the number is not read. -/
def scanInt (input : List Char) : Option Int :=
  match SkipSpace input with
  | none => none
  | some [] => none
  | some (r :: rest) =>
    let sign := if isSign r then [r] else []
    let rest := if isSign r then rest else r :: rest
    match rest with
    | [] => none
    | d :: _ =>
      if isDecimalDigit d = false then none
      else ParseInt (sign ++ rest.takeWhile isDecimalDigit)

/-- The call `fmt.Sscanf(str, "%d", &statusCode)`: the new value of `statusCode`, which is
the scanned integer, or the old value when the scan fails. -/
def Sscanf_d (str : String) (statusCode : Int) : Int :=
  (scanInt str.data).getD statusCode

/-! ## package tui -/

/-- Go `strings.ToUpper`, on ASCII letters. -/
def strings.ToUpper (s : String) : String := ⟨s.data.map Char.toUpper⟩

/-- The fields of `Model` that `addEndpoint` reads and writes: the configuration, the
configurations sent on `updateChan` so far (oldest first), and the values of the four
text inputs. -/
structure Model where
  config : Config
  updateChan : List Config := []
  inputs : Fin 4 → String

/-- Modelled from the spec: `Config.AddEndpoint` is not declared in `config/config.go`.
A Configuration is an ordered sequence in insertion order, so adding an endpoint appends
it; the first component is the configuration afterwards, the second the error returned. -/
def Config.AddEndpoint (c : Config) (e : Endpoint) : Config × Option String :=
  ({ c with Endpoints := c.Endpoints ++ [e] }, none)

/-- Method `Model.addEndpoint`. The function `add` stands for `Config.AddEndpoint`, `id`
for the identifier that `uuid.New().String()` returns. The result is the model afterwards
and the error returned (`none` for nil). -/
def Model.addEndpoint (add : Config → Endpoint → Config × Option String) (id : String)
    (m : Model) : Model × Option String :=
  let method := strings.ToUpper (m.inputs 0)
  let method := if method = "" then "GET" else method
  let path := m.inputs 1
  if path = "" then (m, some "path is required")
  else
    let path := if !strings.HasPrefix path "/" then "/" ++ path else path
    let statusCode : Int := 200
    let statusCode := if m.inputs 2 ≠ "" then Sscanf_d (m.inputs 2) statusCode else statusCode
    let response := m.inputs 3
    let response := if response = "" then "\x7b\"message\": \"success\"\x7d" else response
    match Unmarshal (bytesOf response) with
    | .error err => (m, some ("invalid JSON: " ++ err))
    | .ok js =>
      let endpoint : Endpoint :=
        { ID := id, Method := method, Path := path, StatusCode := statusCode, Response := js }
      match add m.config endpoint with
      | (config, some err) => ({ m with config := config }, some err)
      | (config, none) =>
        ({ m with config := config, updateChan := m.updateChan ++ [config] }, none)

/-! ## Notions used to state the claims -/

/-- The value of an optionally signed string of decimal digits. -/
def signedValue (sgn ds : List Char) : Int :=
  if sgn = ['-'] then -(decimalValue ds : Int) else (decimalValue ds : Int)

/-- The field starts with the integer `n`: optional white space (no line feed), an
optional sign, a non-empty run of decimal digits that no further digit continues, with a
value inside the 64-bit integers. What follows the run is free. -/
def LeadingInteger (field : List Char) (n : Int) : Prop :=
  ∃ ws sgn ds rest : List Char, field = ws ++ sgn ++ ds ++ rest ∧
    (∀ c ∈ ws, fmtIsSpace c = true ∧ c.toNat ≠ 10) ∧
    (sgn = [] ∨ sgn = ['+'] ∨ sgn = ['-']) ∧
    ds ≠ [] ∧ (∀ c ∈ ds, isDecimalDigit c = true) ∧
    (∀ c ∈ rest.head?, isDecimalDigit c = false) ∧
    n = signedValue sgn ds ∧ -(2 : Int) ^ 63 ≤ n ∧ n < (2 : Int) ^ 63

/-- The contract of `Config.AddEndpoint` that the spec gives: when it returns no error,
the configuration afterwards is the one before with the endpoint appended. -/
def AppendsOnSuccess (add : Config → Endpoint → Config × Option String) : Prop :=
  ∀ c e c2, add c e = (c2, none) → c2.Endpoints = c.Endpoints ++ [e]

/-! ## Notions used in the proofs -/

/-- The registrations a mux holds: each pattern with its handler. -/
structure Registered (regs : List (String × HandlerFunc)) (mux : ServeMux) : Prop where
  found : ∀ r ∈ regs, mux.lookup r.1 = some { h := r.2, pattern := r.1 }
  missing : ∀ p, (∀ r ∈ regs, r.1 ≠ p) → mux.lookup p = none
  es_sub : ∀ x ∈ mux.es, ∃ r ∈ regs, x = { h := r.2, pattern := r.1 } ∧ endsInSlash r.1 = true
  es_sup : ∀ r ∈ regs, endsInSlash r.1 = true →
    ({ h := r.2, pattern := r.1 } : muxEntry) ∈ mux.es

/-- The pattern and handler that `addRoute` registers for an endpoint. -/
def regOf (e : Endpoint) : String × HandlerFunc := (e.Path, addRoute.handler e)

/-- The characters that the pattern syntax of `ServeMux` may read as something other than
themselves, depending on the Go release: blank and tab (they end a method), braces (they
mark a wildcard) and the percent sign (it starts an escape). -/
def patternMeta (c : Char) : Bool := c.toNat ∈ [32, 9, 123, 125, 37]

/-- The data-model invariant on `path`: a literal URL path that begins with a slash. On
such paths the classic mux and the mux of Go 1.22 and later agree. -/
def literalPath (p : String) : Bool :=
  p.data.head? == some '/' && p.data.all (fun c => !patternMeta c)

/-- The configurations whose route table can be built: literal paths, pairwise distinct,
none of them the root path that `setupRoutes` keeps for the default handler. -/
def Config.Routable (cfg : Config) : Prop :=
  (∀ e ∈ cfg.Endpoints, literalPath e.Path = true) ∧
  (cfg.Endpoints.map (fun e => e.Path)).Nodup ∧
  (∀ e ∈ cfg.Endpoints, e.Path ≠ "/")

instance (cfg : Config) : Decidable cfg.Routable := by
  unfold Config.Routable; infer_instance

/-- The three CORS headers that `Server.ServeHTTP` sets on every response. -/
def corsHeader : Header :=
  [("Access-Control-Allow-Origin", "*"),
   ("Access-Control-Allow-Methods", "GET, POST, PUT, DELETE, PATCH, OPTIONS"),
   ("Access-Control-Allow-Headers", "Content-Type, Authorization")]

/-- The configuration of the concrete scenario of the spec: GET /ping answering 200. -/
def pingConfig : Config :=
  { Endpoints := [{ Method := "GET", Path := "/ping", StatusCode := 200,
                    Response := bytesOf "\x7b\"ok\":true\x7d" }] }

/-- The four text inputs of the form: method, path, status code, response. -/
def formInputs (method path status response : String) : Fin 4 → String :=
  fun i => [method, path, status, response].getD i.val ""

/-- A form whose response text is not valid JSON. -/
def invalidForm : Model :=
  { config := pingConfig, inputs := formInputs "get" "/users" "200" "\x7bbad" }

/-- A form with the status text "2x" and an empty response text. -/
def form2x : Model :=
  { config := {}, inputs := formInputs "post" "items" "2x" "" }

/-! ## Notions used to state the claims, continued -/

/-- The response the claim on registered endpoints asks for: the run completed, the status
is that of the endpoint, every header of the endpoint is in the response with its value,
and the body is the body of the endpoint. -/
def servesEndpoint (o : Outcome Exec) (e : Endpoint) : Prop :=
  match o with
  | .ok x => x.w.status = e.StatusCode ∧ (∀ kv ∈ e.Headers, x.w.header.Get kv.1 = some kv.2) ∧
      x.w.body = e.Response
  | .panic _ _ => False

instance (o : Outcome Exec) (e : Endpoint) : Decidable (servesEndpoint o e) := by
  unfold servesEndpoint
  split <;> infer_instance

/-- No `HandleFunc` of the trace happens while the write lock is held; `held` tells
whether it is held before the trace starts. -/
def registersUnlocked : Bool → List Event → Bool
  | _, [] => true
  | _, .Lock :: t => registersUnlocked true t
  | _, .Unlock :: t => registersUnlocked false t
  | held, .HandleFunc _ :: t => !held && registersUnlocked held t
  | held, _ :: t => registersUnlocked held t

/-- The endpoint of `pingConfig`. -/
def pingEndpoint : Endpoint :=
  { Method := "GET", Path := "/ping", StatusCode := 200,
    Response := bytesOf "\x7b\"ok\":true\x7d" }

/-- An endpoint with custom headers, one of them replacing the default content type. -/
def usersEndpoint : Endpoint :=
  { ID := "u1", Method := "POST", Path := "/api/users", StatusCode := 201,
    Headers := [("x-request-id", "7"), ("Content-Type", "application/problem+json")],
    Response := bytesOf "\x7b\"id\":7\x7d" }

/-- Two endpoints with different paths. -/
def usersConfig : Config := { Endpoints := [pingEndpoint, usersEndpoint] }

/-- An endpoint whose status code has two digits, as the three-character status field of
the form allows. -/
def shortStatusEndpoint : Endpoint :=
  { Method := "GET", Path := "/short", StatusCode := 42, Response := bytesOf "1" }

/-- An endpoint whose path has an empty segment. -/
def doubleSlashEndpoint : Endpoint :=
  { Method := "GET", Path := "/a//b", StatusCode := 200, Response := bytesOf "1" }

/-- An endpoint with two header names that differ only in case. -/
def headerCaseEndpoint : Endpoint :=
  { Method := "GET", Path := "/h", StatusCode := 200,
    Headers := [("x-tag", "a"), ("X-Tag", "b")], Response := bytesOf "1" }

/-- An endpoint with status 204 (No Content) and a body. -/
def noContentEndpoint : Endpoint :=
  { Method := "GET", Path := "/empty", StatusCode := 204, Response := bytesOf "\x7b\x7d" }

/-- An endpoint registered for the method HEAD. -/
def headEndpoint : Endpoint :=
  { Method := "HEAD", Path := "/probe", StatusCode := 200, Response := bytesOf "\x7b\x7d" }

/-- An endpoint with an interim status code. -/
def interimEndpoint : Endpoint :=
  { Method := "GET", Path := "/early", StatusCode := 103, Response := bytesOf "\x7b\x7d" }

/-- An endpoint that declares a content length shorter than its body. -/
def shortLengthEndpoint : Endpoint :=
  { Method := "GET", Path := "/len", StatusCode := 200,
    Headers := [("Content-Length", "1")], Response := bytesOf "\x7b\x7d" }

/-- An endpoint whose path ends in a slash. -/
def subtreeEndpoint : Endpoint :=
  { Method := "GET", Path := "/api/", StatusCode := 200, Response := bytesOf "[]" }

/-- The configuration with the subtree endpoint alone. -/
def subtreeConfig : Config := { Endpoints := [subtreeEndpoint] }

/-- An endpoint with a delay of 50 milliseconds. -/
def slowEndpoint : Endpoint :=
  { Method := "GET", Path := "/slow", StatusCode := 200, Delay := 50,
    Response := bytesOf "\x7b\x7d" }

/-- Two endpoints A and B with the same path and different methods, A before B. -/
def shadowConfig : Config :=
  { Endpoints := [{ ID := "A", Method := "GET", Path := "/items", StatusCode := 200,
                    Response := bytesOf "[]" },
                  { ID := "B", Method := "POST", Path := "/items", StatusCode := 201,
                    Response := bytesOf "\x7b\x7d" }] }

/-- One endpoint whose path is exactly the root path. -/
def rootConfig : Config :=
  { Endpoints := [{ ID := "R", Method := "GET", Path := "/", StatusCode := 200,
                    Response := bytesOf "\x7b\x7d" }] }

/-- A form that `addEndpoint` accepts: method, path without its slash, status and body. -/
def validForm : Model :=
  { config := pingConfig, inputs := formInputs "post" "users" "201" " \x7b\"id\": 7\x7d " }

/-- The response whose body is the JSON object of the default handler and nothing else. -/
def notFoundJSON : Bytes :=
  bytesOf "\x7b\"error\":\"Endpoint not found. Add it via the TUI!\"\x7d"

/-- The response that `Server.ServeHTTP` gives to an OPTIONS request. -/
def optionsResponse : Exec :=
  { w := { handlerHeader := corsHeader, wroteHeader := true, status := 200,
           header := corsHeader, body := [] },
    trace := [] }

/-- The response of an endpoint handler to a request with another method. -/
def methodNotAllowedResponse : Exec :=
  { w := { handlerHeader := corsHeader, wroteHeader := true, status := 405,
           header := corsHeader, body := [] },
    trace := [.RLock, .RUnlock] }

/-- The response of the default handler. -/
def notFoundResponse : Exec :=
  { w := { handlerHeader := corsHeader.Set "Content-Type" "application/json",
           wroteHeader := true, status := 404,
           header := corsHeader.Set "Content-Type" "application/json",
           body := notFoundBody },
    trace := [.RLock, .RUnlock] }

/-! # Theorems -/

/-! ## Lemmas: the route table -/

theorem lookup_cons (k p : String) (e : muxEntry) (m : List (String × muxEntry)) :
    List.lookup k ((p, e) :: m) = if k = p then some e else List.lookup k m := by
  by_cases h : k = p
  · subst h; simp [List.lookup]
  · have : (k == p) = false := by simpa using h
    simp [List.lookup, this, h]

theorem mem_appendSorted (es : List muxEntry) (e x : muxEntry) :
    x ∈ appendSorted es e ↔ x = e ∨ x ∈ es := by
  induction es with
  | nil => simp [appendSorted]
  | cons y ys ih =>
    unfold appendSorted
    split_ifs
    · simp
    · simp [ih]; tauto

theorem Handle_ok_iff (mux mux2 : ServeMux) (p : String) (h : HandlerFunc) :
    mux.Handle p h = .ok mux2 ↔
      p ≠ "" ∧ mux.lookup p = none ∧
      mux2 = { m := (p, { h := h, pattern := p }) :: mux.m,
               es := if endsInSlash p then appendSorted mux.es { h := h, pattern := p }
                     else mux.es } := by
  unfold ServeMux.Handle
  by_cases h1 : p = ""
  · rw [if_pos h1]
    constructor
    · intro H; cases H
    · intro H; exact absurd h1 H.1
  · rw [if_neg h1]
    cases h2 : mux.lookup p with
    | none =>
      simp only [Option.isSome_none, Bool.false_eq_true, if_false, Except.ok.injEq]
      constructor
      · intro H; exact ⟨h1, trivial, H.symm⟩
      · intro H; exact H.2.2.symm
    | some v =>
      simp only [Option.isSome_some, if_true]
      constructor
      · intro H; cases H
      · intro H; cases H.2.1

theorem Registered.empty : Registered [] {} := by
  constructor
  · intro r hr; cases hr
  · intro p _; rfl
  · intro x hx; cases hx
  · intro r hr; cases hr

theorem Registered.step {regs : List (String × HandlerFunc)} {mux mux2 : ServeMux}
    {p : String} {h : HandlerFunc} (R : Registered regs mux)
    (H : mux.Handle p h = .ok mux2) : Registered (regs ++ [(p, h)]) mux2 := by
  obtain ⟨_, hnone, rfl⟩ := (Handle_ok_iff mux mux2 p h).1 H
  constructor
  · intro r hr
    rcases List.mem_append.1 hr with hr | hr
    · have hf := R.found r hr
      have hne : r.1 ≠ p := by
        intro heq
        rw [heq] at hf
        rw [hf] at hnone
        cases hnone
      show List.lookup r.1 ((p, _) :: mux.m) = _
      rw [lookup_cons, if_neg hne]
      exact hf
    · have : r = (p, h) := by simpa using hr
      subst this
      show List.lookup p ((p, _) :: mux.m) = _
      rw [lookup_cons, if_pos rfl]
  · intro q hq
    have hne : q ≠ p := fun heq => hq (p, h) (by simp) heq.symm
    show List.lookup q ((p, _) :: mux.m) = _
    rw [lookup_cons, if_neg hne]
    exact R.missing q (fun r hr => hq r (List.mem_append_left _ hr))
  · intro x hx
    by_cases hs : endsInSlash p = true
    · simp only [hs, if_true] at hx
      rcases (mem_appendSorted _ _ _).1 hx with hx | hx
      · exact ⟨(p, h), by simp, hx, hs⟩
      · obtain ⟨r, hr, hxr, hrs⟩ := R.es_sub x hx
        exact ⟨r, List.mem_append_left _ hr, hxr, hrs⟩
    · simp only [hs, if_false] at hx
      obtain ⟨r, hr, hxr, hrs⟩ := R.es_sub x hx
      exact ⟨r, List.mem_append_left _ hr, hxr, hrs⟩
  · intro r hr hrs
    by_cases hs : endsInSlash p = true
    · simp only [hs, if_true]
      rw [mem_appendSorted]
      rcases List.mem_append.1 hr with hr | hr
      · exact Or.inr (R.es_sup r hr hrs)
      · have : r = (p, h) := by simpa using hr
        subst this
        exact Or.inl rfl
    · simp only [hs, if_false]
      rcases List.mem_append.1 hr with hr | hr
      · exact R.es_sup r hr hrs
      · have : r = (p, h) := by simpa using hr
        subst this
        exact absurd hrs hs

theorem HandleFunc_ok {regs : List (String × HandlerFunc)} (st : ServerState)
    (p : String) (h : HandlerFunc) (R : Registered regs st.1.mux) (hp : p ≠ "")
    (hnew : ∀ r ∈ regs, r.1 ≠ p) :
    ∃ mux2, Server.HandleFunc p h st
        = .ok ({ st.1 with mux := mux2 }, st.2 ++ [.HandleFunc p]) ∧
      Registered (regs ++ [(p, h)]) mux2 := by
  have hnone := R.missing p hnew
  obtain ⟨mux2, hm⟩ : ∃ mux2, st.1.mux.Handle p h = .ok mux2 :=
    ⟨_, (Handle_ok_iff _ _ p h).2 ⟨hp, hnone, rfl⟩⟩
  refine ⟨mux2, ?_, R.step hm⟩
  unfold Server.HandleFunc
  simp only [hm]

theorem addRoutes_ok (rest : List Endpoint) :
    ∀ (regs : List (String × HandlerFunc)) (st : ServerState),
      Registered regs st.1.mux →
      (∀ e ∈ rest, e.Path ≠ "") →
      (∀ e ∈ rest, ∀ r ∈ regs, r.1 ≠ e.Path) →
      (rest.map (fun e => e.Path)).Nodup →
      ∃ mux2, Server.addRoutes rest st
          = .ok ({ st.1 with mux := mux2 }, st.2 ++ rest.map (fun e => .HandleFunc e.Path)) ∧
        Registered (regs ++ rest.map regOf) mux2 := by
  induction rest with
  | nil =>
    intro regs st R _ _ _
    refine ⟨st.1.mux, ?_, by simpa using R⟩
    simp [Server.addRoutes]
  | cons e rest ih =>
    intro regs st R hne hnew hnd
    obtain ⟨mux1, h1, R1⟩ := HandleFunc_ok st e.Path (addRoute.handler e) R
      (hne e (by simp)) (hnew e (by simp))
    have hnd2 : e.Path ∉ rest.map (fun e => e.Path) ∧ (rest.map (fun e => e.Path)).Nodup := by
      simpa using hnd
    obtain ⟨mux2, h2, R2⟩ := ih (regs ++ [(e.Path, addRoute.handler e)])
      ({ st.1 with mux := mux1 }, st.2 ++ [.HandleFunc e.Path]) R1
      (fun e2 he2 => hne e2 (List.mem_cons_of_mem _ he2))
      (by
        intro e2 he2 r hr
        rcases List.mem_append.1 hr with hr | hr
        · exact hnew e2 (List.mem_cons_of_mem _ he2) r hr
        · have : r = (e.Path, addRoute.handler e) := by simpa using hr
          subst this
          intro heq
          exact hnd2.1 (List.mem_map.2 ⟨e2, he2, heq.symm⟩))
      hnd2.2
    refine ⟨mux2, ?_, ?_⟩
    · simp only [Server.addRoutes, Server.addRoute, h1, Outcome.bind, h2]
      simp
    · simpa [regOf, List.append_assoc] using R2

theorem literalPath_ne_empty {p : String} (h : literalPath p = true) : p ≠ "" := by
  intro hp
  subst hp
  revert h
  decide

theorem setupRoutes_ok_of (st : ServerState)
    (hne : ∀ e ∈ st.1.config.Endpoints, e.Path ≠ "")
    (hnd : (st.1.config.Endpoints.map (fun e => e.Path)).Nodup)
    (hroot : ∀ e ∈ st.1.config.Endpoints, e.Path ≠ "/") :
    ∃ mux, Server.setupRoutes st
        = .ok ({ st.1 with mux := mux },
            st.2 ++ [.Lock, .NewServeMux]
              ++ st.1.config.Endpoints.map (fun e => .HandleFunc e.Path)
              ++ [.HandleFunc "/", .Unlock]) ∧
      Registered (st.1.config.Endpoints.map regOf ++ [("/", defaultHandler)]) mux := by
  obtain ⟨mux1, h1, R1⟩ := addRoutes_ok st.1.config.Endpoints []
    ({ st.1 with mux := {} }, st.2 ++ [.Lock, .NewServeMux]) Registered.empty
    hne (fun e _ r hr => by cases hr) hnd
  obtain ⟨mux2, h2, R2⟩ := HandleFunc_ok
    (({ st.1 with mux := mux1 } : Server),
      st.2 ++ [.Lock, .NewServeMux] ++ st.1.config.Endpoints.map (fun e => .HandleFunc e.Path))
    "/" defaultHandler R1 (by decide)
    (by
      intro r hr
      simp only [List.nil_append, List.mem_map] at hr
      obtain ⟨e, he, rfl⟩ := hr
      exact hroot e he)
  refine ⟨mux2, ?_, by simpa using R2⟩
  unfold Server.setupRoutes
  simp only [Config.GetEndpoints]
  simp only [Config.GetEndpoints] at h1
  rw [h1]
  simp only [Outcome.bind]
  rw [h2]
  simp [Outcome.deferred]

theorem setupRoutes_ok (st : ServerState) (hr : st.1.config.Routable) :
    ∃ mux, Server.setupRoutes st
        = .ok ({ st.1 with mux := mux },
            st.2 ++ [.Lock, .NewServeMux]
              ++ st.1.config.Endpoints.map (fun e => .HandleFunc e.Path)
              ++ [.HandleFunc "/", .Unlock]) ∧
      Registered (st.1.config.Endpoints.map regOf ++ [("/", defaultHandler)]) mux :=
  setupRoutes_ok_of st (fun e he => literalPath_ne_empty (hr.1 e he)) hr.2.1 hr.2.2

theorem Start_ok (cfg : Config) (hr : cfg.Routable) :
    ∃ mux, Start cfg
        = .ok ({ config := cfg, mux := mux },
            [.Lock, .NewServeMux] ++ cfg.Endpoints.map (fun e => .HandleFunc e.Path)
              ++ [.HandleFunc "/", .Unlock]) ∧
      Registered (cfg.Endpoints.map regOf ++ [("/", defaultHandler)]) mux := by
  obtain ⟨mux, h, R⟩ := setupRoutes_ok ({ config := cfg, mux := {} }, []) hr
  exact ⟨mux, by simpa [Start] using h, R⟩

theorem cors_set :
    ((({} : Exec).HeaderSet "Access-Control-Allow-Origin" "*").HeaderSet
        "Access-Control-Allow-Methods" "GET, POST, PUT, DELETE, PATCH, OPTIONS").HeaderSet
        "Access-Control-Allow-Headers" "Content-Type, Authorization"
      = { w := { handlerHeader := corsHeader }, trace := [] } := by
  decide

theorem ServeHTTP_options (s : Server) (path : String) :
    s.ServeHTTP { Method := "OPTIONS", Path := path } {}
      = .ok { w := { handlerHeader := corsHeader, wroteHeader := true, status := 200,
                     header := corsHeader, body := [] },
              trace := [] } := by
  unfold Server.ServeHTTP
  simp only [cors_set]
  rfl

theorem ServeHTTP_other (s : Server) (r : Request) (h : r.Method ≠ "OPTIONS") :
    s.ServeHTTP r {}
      = (s.mux.ServeHTTP r { w := { handlerHeader := corsHeader }, trace := [.RLock] }).deferred
          (fun x => x.emit .RUnlock) := by
  unfold Server.ServeHTTP
  simp only [cors_set, if_neg h]
  rfl

theorem shouldRedirect_of_lookup {mux : ServeMux} {p : String} {v : muxEntry}
    (h : mux.lookup p = some v) : mux.shouldRedirect p = false := by
  unfold ServeMux.shouldRedirect
  simp [h]

theorem Handler_exact {mux : ServeMux} {p : String} {v : muxEntry}
    (h : mux.lookup p = some v) (m : String) (hclean : cleanPath p = p) :
    mux.Handler { Method := m, Path := p } = .entry v := by
  have hs := shouldRedirect_of_lookup h
  have hh : mux.handler p = .entry v := by
    unfold ServeMux.handler ServeMux.match_
    simp only [h]
  unfold ServeMux.Handler
  by_cases hc : m = "CONNECT"
  · simp only [hc, if_true, hs, hh, Bool.false_eq_true, if_false]
  · simp only [hc, if_false, hclean, hs, hh, Bool.false_eq_true, ne_eq, not_true_eq_false]

theorem handler_other (e : Endpoint) (r : Request) (h : r.Method ≠ e.Method) :
    addRoute.handler e r { w := { handlerHeader := corsHeader }, trace := [.RLock] }
      = .ok { w := { handlerHeader := corsHeader, wroteHeader := true, status := 405,
                     header := corsHeader, body := [] },
              trace := [.RLock] } := by
  unfold addRoute.handler
  simp only [ne_eq, h, not_false_eq_true, if_true]
  rfl

theorem dispatch_ok (cfg : Config) (hr : cfg.Routable) (r : Request)
    (hopt : r.Method ≠ "OPTIONS") :
    ∃ mux, Registered (cfg.Endpoints.map regOf ++ [("/", defaultHandler)]) mux ∧
      dispatch cfg r
        = (mux.ServeHTTP r { w := { handlerHeader := corsHeader }, trace := [.RLock] }).deferred
            (fun x => x.emit .RUnlock) := by
  obtain ⟨mux, hs, R⟩ := Start_ok cfg hr
  refine ⟨mux, R, ?_⟩
  unfold dispatch
  rw [hs]
  exact ServeHTTP_other _ r hopt

theorem dispatch_entry (cfg : Config) (hr : cfg.Routable) (e : Endpoint)
    (he : e ∈ cfg.Endpoints) (m : String) (hopt : m ≠ "OPTIONS")
    (hclean : cleanPath e.Path = e.Path) :
    dispatch cfg { Method := m, Path := e.Path }
      = (addRoute.handler e { Method := m, Path := e.Path }
          { w := { handlerHeader := corsHeader }, trace := [.RLock] }).deferred
            (fun x => x.emit .RUnlock) := by
  obtain ⟨mux, R, hd⟩ := dispatch_ok cfg hr { Method := m, Path := e.Path } hopt
  rw [hd]
  have hl := R.found (regOf e) (List.mem_append_left _ (List.mem_map_of_mem regOf he))
  have hH := Handler_exact hl m hclean
  unfold ServeMux.ServeHTTP
  simp only [regOf] at hH
  rw [hH]

theorem cleanPath_head (p : String) : (cleanPath p).data.head? = some '/' := by
  unfold cleanPath
  by_cases h0 : p = ""
  · rw [if_pos h0]; rfl
  · rw [if_neg h0]
    by_cases h1 : p.data.head? = some '/'
    · simp only [h1, if_true]
      split_ifs
      · exact h1
      · rfl
      · rfl
    · simp only [h1, if_false]
      split_ifs
      · rfl
      · rfl
      · rfl

theorem hasPrefix_slash {p : String} (h : p.data.head? = some '/') :
    strings.HasPrefix p "/" = true := by
  unfold strings.HasPrefix
  cases hp : p.data with
  | nil => rw [hp] at h; cases h
  | cons c cs =>
    rw [hp] at h
    simp only [List.head?_cons, Option.some.injEq] at h
    subst h
    show List.isPrefixOf ['/'] ('/' :: cs) = true
    simp [List.isPrefixOf]

theorem append_slash_ne_root {p : String} (h : p ≠ "") : "/" ≠ p ++ "/" := by
  intro heq
  have hd := congrArg String.data heq
  rw [String.data_append] at hd
  have hl := congrArg List.length hd
  simp only [List.length_append] at hl
  have h0 : p.data.length = 0 := by
    have : ("/" : String).data.length = 1 := rfl
    omega
  apply h
  apply String.ext
  exact List.length_eq_zero.1 h0

theorem Handler_default {eps : List Endpoint} {mux : ServeMux}
    (R : Registered (eps.map regOf ++ [("/", defaultHandler)]) mux) (m p : String)
    (hclean : cleanPath p = p)
    (hnot : ∀ e ∈ eps, e.Path ≠ p)
    (hsub : ∀ e ∈ eps, endsInSlash e.Path = true → strings.HasPrefix p e.Path = false)
    (hslash : endsInSlash p = true ∨ ∀ e ∈ eps, e.Path ≠ p ++ "/") :
    mux.Handler { Method := m, Path := p }
      = .entry { h := defaultHandler, pattern := "/" } := by
  have hroot : mux.lookup "/" = some { h := defaultHandler, pattern := "/" } :=
    R.found ("/", defaultHandler) (by simp)
  by_cases hp : p = "/"
  · subst hp
    exact Handler_exact hroot m hclean
  · have hhead : p.data.head? = some '/' := by
      have := cleanPath_head p
      rwa [hclean] at this
    have hne : p ≠ "" := by
      intro h0
      subst h0
      cases hhead
    have hl : mux.lookup p = none := by
      apply R.missing
      intro r hr
      rcases List.mem_append.1 hr with hr | hr
      · obtain ⟨e, he, rfl⟩ := List.mem_map.1 hr
        exact hnot e he
      · have : r = ("/", defaultHandler) := by simpa using hr
        subst this
        exact fun h => hp h.symm
    have hs : mux.shouldRedirect p = false := by
      unfold ServeMux.shouldRedirect
      simp only [hl, Option.isSome_none, Bool.false_eq_true, if_false, if_neg hne]
      rcases hslash with hsl | hsl
      · simp [hsl]
      · have hl2 : mux.lookup (p ++ "/") = none := by
          apply R.missing
          intro r hr
          rcases List.mem_append.1 hr with hr | hr
          · obtain ⟨e, he, rfl⟩ := List.mem_map.1 hr
            exact hsl e he
          · have : r = ("/", defaultHandler) := by simpa using hr
            subst this
            exact append_slash_ne_root hne
        simp [hl2]
    have hh : mux.handler p = .entry { h := defaultHandler, pattern := "/" } := by
      unfold ServeMux.handler ServeMux.match_
      simp only [hl]
      have hmem : ({ h := defaultHandler, pattern := "/" } : muxEntry) ∈ mux.es :=
        R.es_sup ("/", defaultHandler) (by simp) (by decide)
      cases hf : mux.es.find? (fun e => strings.HasPrefix p e.pattern) with
      | none =>
        have := List.find?_eq_none.1 hf _ hmem
        exact absurd (hasPrefix_slash hhead) (by simpa using this)
      | some x =>
        have hx := List.mem_of_find?_eq_some hf
        have hpx := List.find?_some hf
        obtain ⟨r, hr, rfl, hrs⟩ := R.es_sub x hx
        rcases List.mem_append.1 hr with hr | hr
        · obtain ⟨e, he, rfl⟩ := List.mem_map.1 hr
          have := hsub e he hrs
          simp only [regOf] at hpx
          rw [this] at hpx
          cases hpx
        · have : r = ("/", defaultHandler) := by simpa using hr
          subst this
          rfl
    unfold ServeMux.Handler
    by_cases hc : m = "CONNECT"
    · simp only [hc, if_true, hs, hh, Bool.false_eq_true, if_false]
    · simp only [hc, if_false, hclean, hs, hh, Bool.false_eq_true, ne_eq, not_true_eq_false]

theorem defaultHandler_run (r : Request) (hhead : r.Method ≠ "HEAD") :
    defaultHandler r { w := { handlerHeader := corsHeader }, trace := [.RLock] }
      = .ok { w := { handlerHeader := corsHeader.Set "Content-Type" "application/json",
                     wroteHeader := true, status := 404,
                     header := corsHeader.Set "Content-Type" "application/json",
                     body := notFoundBody },
              trace := [.RLock] } := by
  have h1 : (({ w := { handlerHeader := corsHeader }, trace := [.RLock] } : Exec).HeaderSet
      "Content-Type" "application/json").WriteHeader 404
      = .ok { w := { handlerHeader := corsHeader.Set "Content-Type" "application/json",
                     wroteHeader := true, status := 404,
                     header := corsHeader.Set "Content-Type" "application/json" },
              trace := [.RLock] } := by
    decide
  have h2 : notFoundBody ≠ [] := by decide
  unfold defaultHandler
  simp only [h1, Outcome.bind, Exec.Write]
  simp [h2, hhead, bodyAllowedForStatus]

theorem dispatch_default (cfg : Config) (hr : cfg.Routable) (r : Request)
    (hopt : r.Method ≠ "OPTIONS") (hhead : r.Method ≠ "HEAD")
    (hclean : cleanPath r.Path = r.Path)
    (hnot : ∀ e ∈ cfg.Endpoints, e.Path ≠ r.Path)
    (hsub : ∀ e ∈ cfg.Endpoints, endsInSlash e.Path = true →
      strings.HasPrefix r.Path e.Path = false)
    (hslash : endsInSlash r.Path = true ∨ ∀ e ∈ cfg.Endpoints, e.Path ≠ r.Path ++ "/") :
    dispatch cfg r
      = .ok { w := { handlerHeader := corsHeader.Set "Content-Type" "application/json",
                     wroteHeader := true, status := 404,
                     header := corsHeader.Set "Content-Type" "application/json",
                     body := notFoundBody },
              trace := [.RLock, .RUnlock] } := by
  obtain ⟨mux, R, hd⟩ := dispatch_ok cfg hr r hopt
  rw [hd]
  have hH := Handler_default R r.Method r.Path hclean hnot hsub hslash
  unfold ServeMux.ServeHTTP
  rw [hH]
  simp only [defaultHandler_run r hhead]
  rfl

theorem bind_ok_inv {σ : Type} {o : Outcome σ} {f : σ → Outcome σ} {s2 : σ}
    (h : o.bind f = .ok s2) : ∃ s1, o = .ok s1 ∧ f s1 = .ok s2 := by
  cases o with
  | ok s1 => exact ⟨s1, rfl, h⟩
  | panic v s1 => cases h

theorem HandleFunc_ok_inv {st st2 : ServerState} {p : String} {h : HandlerFunc}
    (H : Server.HandleFunc p h st = .ok st2) :
    p ≠ "" ∧ st.1.mux.lookup p = none ∧
      ∀ q, st2.1.mux.lookup q
        = if q = p then some { h := h, pattern := p } else st.1.mux.lookup q := by
  unfold Server.HandleFunc at H
  cases hm : st.1.mux.Handle p h with
  | error v => rw [hm] at H; cases H
  | ok mux2 =>
    rw [hm] at H
    simp only [Outcome.ok.injEq] at H
    obtain ⟨hp, hnone, rfl⟩ := (Handle_ok_iff _ _ p h).1 hm
    refine ⟨hp, hnone, ?_⟩
    intro q
    rw [← H]
    exact lookup_cons q p _ _

theorem addRoutes_ok_inv (rest : List Endpoint) :
    ∀ st st2 : ServerState, Server.addRoutes rest st = .ok st2 →
      (rest.map (fun e => e.Path)).Nodup ∧
      (∀ e ∈ rest, e.Path ≠ "" ∧ st.1.mux.lookup e.Path = none) ∧
      (∀ q, st2.1.mux.lookup q = none ↔
        st.1.mux.lookup q = none ∧ q ∉ rest.map (fun e => e.Path)) := by
  induction rest with
  | nil =>
    intro st st2 h
    simp only [Server.addRoutes, Outcome.ok.injEq] at h
    subst h
    simp
  | cons e rest ih =>
    intro st st2 h
    obtain ⟨st1, h1, h2⟩ := bind_ok_inv (by simpa [Server.addRoutes] using h)
    obtain ⟨hp, hnone, hl⟩ := HandleFunc_ok_inv h1
    obtain ⟨hnd, hall, hiff⟩ := ih st1 st2 h2
    have hne : ∀ e2 ∈ rest, e2.Path ≠ e.Path ∧ st.1.mux.lookup e2.Path = none := by
      intro e2 he2
      have h3 := (hall e2 he2).2
      rw [hl] at h3
      by_cases heq : e2.Path = e.Path
      · rw [if_pos heq] at h3; cases h3
      · rw [if_neg heq] at h3; exact ⟨heq, h3⟩
    refine ⟨?_, ?_, ?_⟩
    · simp only [List.map_cons, List.nodup_cons, List.mem_map, not_exists, not_and]
      exact ⟨fun e2 he2 heq => (hne e2 he2).1 heq, hnd⟩
    · intro e2 he2
      rcases List.mem_cons.1 he2 with rfl | he2
      · exact ⟨hp, hnone⟩
      · exact ⟨(hall e2 he2).1, (hne e2 he2).2⟩
    · intro q
      rw [hiff q, hl q]
      by_cases hq : q = e.Path
      · simp [hq]
      · simp [hq]

theorem Start_ok_necessary (cfg : Config) (st : ServerState) (h : Start cfg = .ok st) :
    (∀ e ∈ cfg.Endpoints, e.Path ≠ "") ∧
      (cfg.Endpoints.map (fun e => e.Path)).Nodup ∧
      (∀ e ∈ cfg.Endpoints, e.Path ≠ "/") := by
  unfold Start Server.setupRoutes at h
  simp only [Config.GetEndpoints] at h
  cases hb : (Server.addRoutes cfg.Endpoints
      (({ config := cfg, mux := {} } : Server), [] ++ [Event.Lock, Event.NewServeMux])).bind
      (Server.HandleFunc "/" defaultHandler) with
  | panic v s => rw [hb] at h; cases h
  | ok s2 =>
    obtain ⟨s1, h1, h2⟩ := bind_ok_inv hb
    obtain ⟨hnd, hall, hiff⟩ := addRoutes_ok_inv _ _ _ h1
    obtain ⟨_, hroot, _⟩ := HandleFunc_ok_inv h2
    refine ⟨fun e he => (hall e he).1, hnd, ?_⟩
    intro e he heq
    have := ((hiff "/").1 hroot).2
    exact this (List.mem_map.2 ⟨e, he, heq⟩)

/-! ## Lemmas: the JSON scanner and white space -/

theorem isSpace_cases {c : UInt8} (h : isSpace c = true) :
    c = 32 ∨ c = 9 ∨ c = 13 ∨ c = 10 := by
  simp only [isSpace, Bool.or_eq_true, beq_iff_eq] at h
  tauto

theorem run_reset_space {c : UInt8} (h : isSpace c = true) :
    scanner.run {} c = {} := by
  rcases isSpace_cases h with rfl | rfl | rfl | rfl <;> decide

set_option maxHeartbeats 1600000 in
theorem eof_run_space (s : scanner) (c : UInt8) (hc : isSpace c = true)
    (h : (s.run c).eof = true) : s.eof = true := by
  obtain ⟨step, endTop, ps, err⟩ := s
  rcases isSpace_cases hc with rfl | rfl | rfl | rfl <;>
    cases step <;> cases err <;> cases endTop <;>
      (first
        | rfl
        | (revert h; rcases ps with _ | ⟨p, rest⟩ <;>
            (first
              | decide
              | (cases p <;>
                  simp [scanner.run, scanner.eof, scanner.error, scanner.stateEndTop,
                    scanner.stateEndValue, scanner.stateBeginValue,
                    scanner.stateBeginValueOrEmpty, scanner.stateBeginString,
                    scanner.stateBeginStringOrEmpty, scanner.state0, scanner.stateESign,
                    scanner.popParseState, scanner.pushParseState, isSpace, isDigit,
                    isHex]))))

theorem checkValid_dropWhile (data : Bytes) :
    checkValid (data.dropWhile isSpace) = checkValid data := by
  induction data with
  | nil => rfl
  | cons c rest ih =>
    by_cases hc : isSpace c = true
    · rw [List.dropWhile_cons_of_pos hc, ih]
      unfold checkValid
      rw [List.foldl_cons, run_reset_space hc]
    · rw [List.dropWhile_cons_of_neg hc]

theorem checkValid_trailing (l : Bytes) (c : UInt8) (hc : isSpace c = true)
    (h : checkValid (l ++ [c]) = true) : checkValid l = true := by
  unfold checkValid at h ⊢
  rw [List.foldl_append] at h
  exact eof_run_space _ c hc h

theorem checkValid_dropTrailing (r : Bytes) :
    checkValid r.reverse = true → checkValid (r.dropWhile isSpace).reverse = true := by
  induction r with
  | nil => intro h; exact h
  | cons c r ih =>
    intro h
    by_cases hc : isSpace c = true
    · rw [List.dropWhile_cons_of_pos hc]
      apply ih
      rw [List.reverse_cons] at h
      exact checkValid_trailing _ c hc h
    · rw [List.dropWhile_cons_of_neg hc]
      exact h

theorem checkValid_trimSpace (data : Bytes) (h : checkValid data = true) :
    checkValid (trimSpace data) = true := by
  unfold trimSpace
  apply checkValid_dropTrailing
  rw [List.reverse_reverse, checkValid_dropWhile]
  exact h

theorem Unmarshal_ok_iff (data js : Bytes) :
    Unmarshal data = .ok js ↔ checkValid data = true ∧ js = trimSpace data := by
  unfold Unmarshal
  by_cases h : checkValid data = true
  · simp [h, eq_comm]
  · simp [h]

/-! ## Lemmas: the scan of the status field -/

theorem sign_not_space {c : Char} (h : isSign c = true) :
    fmtIsSpace c = false ∧ c.toNat ≠ 10 := by
  simp only [isSign, Bool.or_eq_true, beq_iff_eq] at h
  simp only [fmtIsSpace, Bool.or_eq_false_iff, Bool.and_eq_false_iff, decide_eq_false_iff_not,
    beq_eq_false_iff_ne, ne_eq, not_le]
  omega

theorem digit_not_space {c : Char} (h : isDecimalDigit c = true) :
    fmtIsSpace c = false ∧ c.toNat ≠ 10 := by
  simp only [isDecimalDigit, isDecimalDigit, Bool.or_eq_true, Bool.and_eq_true,
    decide_eq_true_eq, beq_iff_eq] at h
  simp only [fmtIsSpace, Bool.or_eq_false_iff, Bool.and_eq_false_iff, decide_eq_false_iff_not,
    beq_eq_false_iff_ne, ne_eq, not_le]
  omega

theorem digit_not_sign {c : Char} (h : isDecimalDigit c = true) :
    isSign c = false := by
  simp only [isDecimalDigit, isDecimalDigit, Bool.or_eq_true, Bool.and_eq_true,
    decide_eq_true_eq, beq_iff_eq] at h
  simp only [isSign, Bool.or_eq_false_iff, beq_eq_false_iff_ne, ne_eq]
  omega

theorem SkipSpace_blank (ws t : List Char)
    (h : ∀ c ∈ ws, fmtIsSpace c = true ∧ c.toNat ≠ 10) :
    SkipSpace (ws ++ t) = SkipSpace t := by
  induction ws with
  | nil => rfl
  | cons c ws ih =>
    have hc := h c (by simp)
    rw [List.cons_append, SkipSpace, if_neg hc.2, if_pos hc.1]
    exact ih (fun d hd => h d (List.mem_cons_of_mem _ hd))

theorem SkipSpace_stop (c : Char) (cs : List Char) (h : fmtIsSpace c = false ∧ c.toNat ≠ 10) :
    SkipSpace (c :: cs) = some (c :: cs) := by
  rw [SkipSpace, if_neg h.2]
  simp [h.1]

theorem SkipSpace_some (input : List Char) :
    ∀ t, SkipSpace input = some t →
      ∃ ws, input = ws ++ t ∧ (∀ c ∈ ws, fmtIsSpace c = true ∧ c.toNat ≠ 10) := by
  induction input with
  | nil =>
    intro t h
    simp only [SkipSpace, Option.some.injEq] at h
    subst h
    exact ⟨[], rfl, by simp⟩
  | cons c cs ih =>
    intro t h
    rw [SkipSpace] at h
    by_cases h10 : c.toNat = 10
    · rw [if_pos h10] at h; cases h
    · rw [if_neg h10] at h
      by_cases hs : fmtIsSpace c = true
      · rw [if_pos hs] at h
        obtain ⟨ws, hws, hb⟩ := ih t h
        refine ⟨c :: ws, by rw [hws]; rfl, ?_⟩
        intro d hd
        rcases List.mem_cons.1 hd with rfl | hd
        · exact ⟨hs, h10⟩
        · exact hb d hd
      · rw [if_neg hs] at h
        simp only [Option.some.injEq] at h
        subst h
        exact ⟨[], rfl, by simp⟩

theorem takeWhile_run (ds rest : List Char)
    (hds : ∀ c ∈ ds, isDecimalDigit c = true)
    (hrest : ∀ c ∈ rest.head?, isDecimalDigit c = false) :
    (ds ++ rest).takeWhile isDecimalDigit = ds := by
  induction ds with
  | nil =>
    cases rest with
    | nil => rfl
    | cons r rest =>
      have := hrest r (by simp)
      simp [List.takeWhile, this]
  | cons d ds ih =>
    have hd : isDecimalDigit d = true :=
      hds d (by simp)
    rw [List.cons_append, List.takeWhile_cons_of_pos hd,
      ih (fun c hc => hds c (List.mem_cons_of_mem _ hc))]

theorem all_digits {ds : List Char} (h : ∀ c ∈ ds, isDecimalDigit c = true) :
    ds.all isDecimalDigit = true := by
  simpa using h

theorem char_of_toNat {c : Char} {n : Nat} (h : c.toNat = n) : c = Char.ofNat n := by
  rw [← h, Char.ofNat_toNat]

theorem ParseInt_digits (d : Char) (ds : List Char)
    (hds : ∀ c ∈ d :: ds, isDecimalDigit c = true) :
    ParseInt (d :: ds)
      = if ((decimalValue (d :: ds) : Nat) : Int) < -(2 : Int) ^ 63 ∨
            (2 : Int) ^ 63 ≤ ((decimalValue (d :: ds) : Nat) : Int)
        then none else some ((decimalValue (d :: ds) : Nat) : Int) := by
  have hd : isDecimalDigit d = true :=
      hds d (by simp)
  have hns := digit_not_sign hd
  have h45 : (d.toNat == 45) = false := by
    simp only [isSign, Bool.or_eq_false_iff] at hns
    exact hns.2
  unfold ParseInt
  simp only [hns, Bool.false_eq_true, if_false, h45, all_digits hds]
  simp

theorem ParseInt_signed (s : Char) (hs : isSign s = true) (ds : List Char) (hne : ds ≠ [])
    (hds : ∀ c ∈ ds, isDecimalDigit c = true) :
    ParseInt (s :: ds)
      = if (if s.toNat = 45 then -((decimalValue ds : Nat) : Int)
              else ((decimalValue ds : Nat) : Int)) < -(2 : Int) ^ 63 ∨
            (2 : Int) ^ 63 ≤ (if s.toNat = 45 then -((decimalValue ds : Nat) : Int)
              else ((decimalValue ds : Nat) : Int))
        then none
        else some (if s.toNat = 45 then -((decimalValue ds : Nat) : Int)
              else ((decimalValue ds : Nat) : Int)) := by
  unfold ParseInt
  simp only [hs, if_true, all_digits hds, hne, false_or, beq_iff_eq]
  simp

theorem scanInt_of_leading (field : List Char) (n : Int) (h : LeadingInteger field n) :
    scanInt field = some n := by
  obtain ⟨ws, sgn, ds, rest, rfl, hws, hsgn, hne, hds, hrest, hn, hlo, hhi⟩ := h
  obtain ⟨d, ds2, rfl⟩ := List.exists_cons_of_ne_nil hne
  have hdu : isDecimalDigit d = true :=
      hds d (by simp)
  have hrange : ¬ (n < -(2 : Int) ^ 63 ∨ (2 : Int) ^ 63 ≤ n) := by omega
  unfold scanInt
  rw [List.append_assoc, List.append_assoc, SkipSpace_blank _ _ hws]
  rcases hsgn with rfl | rfl | rfl
  · simp only [List.nil_append, List.cons_append]
    rw [SkipSpace_stop d _ (digit_not_space hdu)]
    simp only [digit_not_sign hdu, Bool.false_eq_true, if_false, hdu, List.nil_append]
    rw [← List.cons_append, takeWhile_run _ _ hds hrest, ParseInt_digits d ds2 hds]
    have hv : n = ((decimalValue (d :: ds2) : Nat) : Int) := by
      rw [hn]; simp [signedValue]
    rw [← hv, if_neg hrange]
    simp
  · have hs : isSign '+' = true := by decide
    simp only [List.cons_append, List.nil_append]
    rw [SkipSpace_stop '+' _ (sign_not_space hs)]
    simp only [hs, if_true, hdu, Bool.true_eq_false, if_false, List.singleton_append]
    rw [← List.cons_append, takeWhile_run _ _ hds hrest, ParseInt_signed '+' hs _ hne hds]
    have hv : n = ((decimalValue (d :: ds2) : Nat) : Int) := by
      rw [hn]; simp [signedValue]
    have h43 : ¬ ('+' : Char).toNat = 45 := by decide
    simp only [h43, if_false]
    rw [← hv, if_neg hrange]
  · have hs : isSign '-' = true := by decide
    simp only [List.cons_append, List.nil_append]
    rw [SkipSpace_stop '-' _ (sign_not_space hs)]
    simp only [hs, if_true, hdu, Bool.true_eq_false, if_false, List.singleton_append]
    rw [← List.cons_append, takeWhile_run _ _ hds hrest, ParseInt_signed '-' hs _ hne hds]
    have hv : n = -((decimalValue (d :: ds2) : Nat) : Int) := by
      rw [hn]; simp [signedValue]
    have h45 : ('-' : Char).toNat = 45 := by decide
    simp only [h45, if_true]
    rw [← hv, if_neg hrange]

theorem head_dropWhile (l : List Char) :
    ∀ c ∈ (l.dropWhile isDecimalDigit).head?,
      isDecimalDigit c = false := by
  induction l with
  | nil => intro c hc; cases hc
  | cons a l ih =>
    by_cases ha : isDecimalDigit a = true
    · rw [List.dropWhile_cons_of_pos ha]; exact ih
    · rw [List.dropWhile_cons_of_neg ha]
      intro c hc
      simp only [List.head?_cons, Option.mem_def, Option.some.injEq] at hc
      subst hc
      simpa using ha

theorem ParseInt_some_digits (tok : List Char) (n : Int) (h : ParseInt tok = some n)
    (hhead : ∀ c ∈ tok.head?, isSign c = false) :
    tok ≠ [] ∧ (∀ c ∈ tok, isDecimalDigit c = true) ∧
      n = ((decimalValue tok : Nat) : Int) ∧ -(2 : Int) ^ 63 ≤ n ∧ n < (2 : Int) ^ 63 := by
  cases tok with
  | nil => cases h
  | cons c cs =>
    have hc := hhead c (by simp)
    have h45 : (c.toNat == 45) = false := by
      simp only [isSign, Bool.or_eq_false_iff] at hc
      exact hc.2
    unfold ParseInt at h
    simp only [hc, Bool.false_eq_true, if_false, h45] at h
    by_cases h1 : c :: cs = [] ∨ (c :: cs).all isDecimalDigit = false
    · rw [if_pos h1] at h; cases h
    · rw [if_neg h1] at h
      by_cases h2 : ((decimalValue (c :: cs) : Nat) : Int) < -(2 : Int) ^ 63 ∨
          (2 : Int) ^ 63 ≤ ((decimalValue (c :: cs) : Nat) : Int)
      · rw [if_pos h2] at h; cases h
      · rw [if_neg h2] at h
        simp only [Option.some.injEq] at h
        subst h
        refine ⟨by simp, ?_, rfl, by omega, by omega⟩
        have : ¬ ((c :: cs).all isDecimalDigit = false) := fun hh => h1 (Or.inr hh)
        simpa using this

theorem ParseInt_some_signed (s : Char) (hs : isSign s = true) (tok : List Char) (n : Int)
    (h : ParseInt (s :: tok) = some n) :
    tok ≠ [] ∧ (∀ c ∈ tok, isDecimalDigit c = true) ∧
      n = (if s.toNat = 45 then -((decimalValue tok : Nat) : Int)
            else ((decimalValue tok : Nat) : Int)) ∧
      -(2 : Int) ^ 63 ≤ n ∧ n < (2 : Int) ^ 63 := by
  unfold ParseInt at h
  simp only [hs, if_true, beq_iff_eq] at h
  by_cases h1 : tok = [] ∨ tok.all isDecimalDigit = false
  · rw [if_pos h1] at h; cases h
  · rw [if_neg h1] at h
    have hne : tok ≠ [] := fun hh => h1 (Or.inl hh)
    have hall : ∀ c ∈ tok, isDecimalDigit c = true := by
      have : ¬ (tok.all isDecimalDigit = false) := fun hh => h1 (Or.inr hh)
      simpa using this
    by_cases h45 : s.toNat = 45
    · simp only [h45, decide_True, if_true] at h ⊢
      by_cases h2 : -((decimalValue tok : Nat) : Int) < -(2 : Int) ^ 63 ∨
          (2 : Int) ^ 63 ≤ -((decimalValue tok : Nat) : Int)
      · rw [if_pos h2] at h; cases h
      · rw [if_neg h2] at h
        simp only [Option.some.injEq] at h
        subst h
        exact ⟨hne, hall, rfl, by omega, by omega⟩
    · simp only [h45, decide_False, if_false] at h ⊢
      by_cases h2 : ((decimalValue tok : Nat) : Int) < -(2 : Int) ^ 63 ∨
          (2 : Int) ^ 63 ≤ ((decimalValue tok : Nat) : Int)
      · rw [if_pos h2] at h; cases h
      · rw [if_neg h2] at h
        simp only [Option.some.injEq] at h
        subst h
        exact ⟨hne, hall, rfl, by omega, by omega⟩

theorem sign_cases {r : Char} (h : isSign r = true) : r = '+' ∨ r = '-' := by
  simp only [isSign, Bool.or_eq_true, beq_iff_eq] at h
  rcases h with h | h
  · exact Or.inl (char_of_toNat h)
  · exact Or.inr (char_of_toNat h)

theorem leading_of_scanInt (field : List Char) (n : Int) (h : scanInt field = some n) :
    LeadingInteger field n := by
  unfold scanInt at h
  cases hs : SkipSpace field with
  | none => rw [hs] at h; cases h
  | some t =>
    rw [hs] at h
    obtain ⟨ws, rfl, hws⟩ := SkipSpace_some field t hs
    cases t with
    | nil => cases h
    | cons r rest0 =>
      simp only at h
      by_cases hsg : isSign r = true
      · simp only [hsg, if_true] at h
        cases rest0 with
        | nil => cases h
        | cons d rest1 =>
          simp only at h
          by_cases hd : isDecimalDigit d = false
          · rw [if_pos hd] at h; cases h
          · rw [if_neg hd] at h
            obtain ⟨hne, hall, hn, hlo, hhi⟩ := ParseInt_some_signed r hsg _ n h
            refine ⟨ws, [r], (d :: rest1).takeWhile isDecimalDigit,
              (d :: rest1).dropWhile isDecimalDigit, ?_, hws, ?_, hne, hall,
              head_dropWhile _, ?_, hlo, hhi⟩
            · rw [List.append_assoc, List.append_assoc, List.takeWhile_append_dropWhile]
              rfl
            · rcases sign_cases hsg with rfl | rfl
              · exact Or.inr (Or.inl rfl)
              · exact Or.inr (Or.inr rfl)
            · rw [hn]
              rcases sign_cases hsg with rfl | rfl
              · have : ¬ ('+' : Char).toNat = 45 := by decide
                simp [signedValue, this]
              · have : ('-' : Char).toNat = 45 := by decide
                simp [signedValue, this]
      · simp only [hsg, Bool.false_eq_true, if_false, List.nil_append] at h
        by_cases hd : isDecimalDigit r = false
        · rw [if_pos hd] at h; cases h
        · rw [if_neg hd] at h
          have hhead : ∀ c ∈ ((r :: rest0).takeWhile isDecimalDigit).head?,
              isSign c = false := by
            intro c hc
            have hr : isDecimalDigit r = true := by simpa using hd
            rw [List.takeWhile_cons_of_pos hr] at hc
            simp only [List.head?_cons, Option.mem_def, Option.some.injEq] at hc
            subst hc
            exact digit_not_sign hr
          obtain ⟨hne, hall, hn, hlo, hhi⟩ := ParseInt_some_digits _ n h hhead
          refine ⟨ws, [], (r :: rest0).takeWhile isDecimalDigit,
            (r :: rest0).dropWhile isDecimalDigit, ?_, hws, Or.inl rfl, hne, hall,
            head_dropWhile _, ?_, hlo, hhi⟩
          · rw [List.append_assoc, List.append_nil, List.takeWhile_append_dropWhile]
          · rw [hn]; simp [signedValue]

theorem scanInt_eq_some_iff (field : List Char) (n : Int) :
    scanInt field = some n ↔ LeadingInteger field n :=
  ⟨leading_of_scanInt field n, scanInt_of_leading field n⟩

/-! ## Lemmas: the form and the reload -/

theorem AddEndpoint_appends : AppendsOnSuccess Config.AddEndpoint := by
  intro c e c2 h
  simp only [Config.AddEndpoint, Prod.mk.injEq] at h
  rw [← h.1]

theorem addEndpoint_ok (add : Config → Endpoint → Config × Option String) (id : String)
    (m m2 : Model) (h : Model.addEndpoint add id m = (m2, none)) :
    ∃ e config, add m.config e = (config, none) ∧
      m2 = { m with config := config, updateChan := m.updateChan ++ [config] } ∧
      e.StatusCode = (if m.inputs 2 ≠ "" then Sscanf_d (m.inputs 2) 200 else 200) ∧
      Unmarshal (bytesOf (if m.inputs 3 = "" then "\x7b\"message\": \"success\"\x7d"
        else m.inputs 3)) = .ok e.Response := by
  unfold Model.addEndpoint at h
  by_cases hp : m.inputs 1 = ""
  · rw [if_pos hp] at h
    simp at h
  · rw [if_neg hp] at h
    simp only at h
    cases hu : Unmarshal (bytesOf (if m.inputs 3 = "" then "\x7b\"message\": \"success\"\x7d"
        else m.inputs 3)) with
    | error err =>
      rw [hu] at h
      simp at h
    | ok js =>
      rw [hu] at h
      simp only at h
      split at h
      · rename_i config err heq
        simp at h
      · rename_i config heq
        simp only [Prod.mk.injEq, and_true] at h
        exact ⟨_, config, heq, h.symm, rfl, rfl⟩

theorem addEndpoint_invalid (add : Config → Endpoint → Config × Option String) (id : String)
    (m : Model) (hne : m.inputs 3 ≠ "")
    (hinv : checkValid (bytesOf (m.inputs 3)) = false) :
    ∃ err, Model.addEndpoint add id m = (m, some err) := by
  unfold Model.addEndpoint
  by_cases hp : m.inputs 1 = ""
  · rw [if_pos hp]
    exact ⟨_, rfl⟩
  · rw [if_neg hp]
    simp only [if_neg hne]
    have hu : Unmarshal (bytesOf (m.inputs 3)) = .error "invalid JSON" := by
      unfold Unmarshal
      simp [hinv]
    rw [hu]
    exact ⟨_, rfl⟩

theorem short_status_panics :
    (dispatch { Endpoints := [shortStatusEndpoint] }
        { Method := "GET", Path := "/short" }).panicValue?
      = some (.invalidWriteHeaderCode 42) := by
  decide

theorem double_slash_redirects :
    (dispatch { Endpoints := [doubleSlashEndpoint] }
        { Method := "GET", Path := "/a//b" }).state.w.header.Get "Location" = some "/a/b" ∧
    (dispatch { Endpoints := [doubleSlashEndpoint] }
        { Method := "GET", Path := "/a//b" }).state.w.body = [] := by
  decide

theorem no_content_status_drops_body :
    (dispatch { Endpoints := [noContentEndpoint] }
        { Method := "GET", Path := "/empty" }).state.w.status = 204 ∧
    (dispatch { Endpoints := [noContentEndpoint] }
        { Method := "GET", Path := "/empty" }).state.w.body = [] := by
  decide

theorem head_request_drops_body :
    (dispatch { Endpoints := [headEndpoint] }
        { Method := "HEAD", Path := "/probe" }).state.w.status = 200 ∧
    (dispatch { Endpoints := [headEndpoint] }
        { Method := "HEAD", Path := "/probe" }).state.w.body = [] ∧
    (dispatch pingConfig { Method := "HEAD", Path := "/missing" }).state.w.status = 404 ∧
    (dispatch pingConfig { Method := "HEAD", Path := "/missing" }).state.w.body = [] := by
  decide

theorem interim_status_becomes_200 :
    (dispatch { Endpoints := [interimEndpoint] }
        { Method := "GET", Path := "/early" }).state.w.interim = [103] ∧
    (dispatch { Endpoints := [interimEndpoint] }
        { Method := "GET", Path := "/early" }).state.w.status = 200 := by
  decide

theorem short_content_length_refuses_body :
    (dispatch { Endpoints := [shortLengthEndpoint] }
        { Method := "GET", Path := "/len" }).state.w.body = [] := by
  decide

theorem header_case_collides :
    (dispatch { Endpoints := [headerCaseEndpoint] }
        { Method := "GET", Path := "/h" }).state.w.header.Get "x-tag" = some "b" ∧
    ¬ servesEndpoint
        (dispatch { Endpoints := [headerCaseEndpoint] } { Method := "GET", Path := "/h" })
        headerCaseEndpoint := by
  decide

theorem subtree_answers_below :
    (∀ e ∈ subtreeConfig.Endpoints, e.Path ≠ "/api/users") ∧
    (dispatch subtreeConfig { Method := "GET", Path := "/api/users" }).state.w.status = 200 ∧
    (dispatch subtreeConfig { Method := "POST", Path := "/api/users" }).state.w.status = 405 := by
  decide

theorem subtree_redirects_without_slash :
    (∀ e ∈ subtreeConfig.Endpoints, e.Path ≠ "/api") ∧
    (dispatch subtreeConfig { Method := "GET", Path := "/api" }).state.w.header.Get "Location"
      = some "/api/" ∧
    (dispatch subtreeConfig { Method := "GET", Path := "/api" }).state.w.body = [] := by
  decide

theorem unclean_path_redirects :
    (∀ e ∈ pingConfig.Endpoints, e.Path ≠ "/missing//x") ∧
    (dispatch pingConfig { Method := "GET", Path := "/missing//x" }).state.w.header.Get
      "Location" = some "/missing/x" ∧
    (dispatch pingConfig { Method := "GET", Path := "/missing//x" }).state.w.body = [] := by
  decide

theorem registersUnlocked_held (l : List Endpoint) (t : List Event) :
    registersUnlocked true (l.map (fun e => Event.HandleFunc e.Path)
      ++ Event.HandleFunc "/" :: t) = false := by
  induction l with
  | nil => simp [registersUnlocked]
  | cons e l _ => simp [registersUnlocked]

theorem reload_ok (cfg : Config) (st : ServerState) (hr : cfg.Routable) :
    ∃ mux, Server.reload cfg st
        = .ok ({ config := cfg, mux := mux },
            st.2 ++ [.Lock, .NewServeMux] ++ cfg.Endpoints.map (fun e => .HandleFunc e.Path)
              ++ [.HandleFunc "/", .Unlock, .LogReload cfg.Endpoints.length]) := by
  obtain ⟨mux, h, _⟩ := setupRoutes_ok (({ st.1 with config := cfg } : Server), st.2) hr
  refine ⟨mux, ?_⟩
  unfold Server.reload
  simp only at h ⊢
  rw [h]
  simp [Outcome.bind, Config.GetEndpoints]

theorem watchForUpdates_one (cfg : Config) (st : ServerState) :
    Server.watchForUpdates [cfg] st = Server.reload cfg st := by
  unfold Server.watchForUpdates
  cases Server.reload cfg st <;> rfl

theorem overlong_delay_does_not_sleep :
    (dispatch { Endpoints := [{ slowEndpoint with Delay := 9223372036855 }] }
        { Method := "GET", Path := "/slow" }).state.trace
      = [.RLock, .LogRequest "GET" "/slow" 200, .RUnlock] := by
  decide

theorem leadingInteger_2x : LeadingInteger "2x".data 2 :=
  (scanInt_eq_some_iff _ _).1 (by decide)

theorem leadingInteger_signed : LeadingInteger " -12 ".data (-12) :=
  (scanInt_eq_some_iff _ _).1 (by decide)

theorem leadingInteger_underscore : LeadingInteger "1_0".data 1 :=
  (scanInt_eq_some_iff _ _).1 (by decide)

theorem no_leadingInteger_abc (n : Int) : ¬ LeadingInteger "abc".data n := by
  intro h
  have h2 := (scanInt_eq_some_iff _ _).2 h
  have h3 : scanInt "abc".data = none := by decide
  rw [h3] at h2
  cases h2

theorem no_leadingInteger_minus (n : Int) : ¬ LeadingInteger "-".data n := by
  intro h
  have h2 := (scanInt_eq_some_iff _ _).2 h
  have h3 : scanInt "-".data = none := by decide
  rw [h3] at h2
  cases h2

/-! ## The claims -/

/-- C2, as stated, fails. GET /missing against the one-endpoint /ping configuration is
answered 404 with the JSON content type, but the body is the JSON object followed by a line
feed, which `Encode` appends: it is not exactly the bytes of the object. -/
theorem C2_counterexample :
    (∀ e ∈ pingConfig.Endpoints, e.Path ≠ "/missing") ∧
    dispatch pingConfig { Method := "GET", Path := "/missing" } = .ok notFoundResponse ∧
    notFoundResponse.w.status = 404 ∧
    notFoundResponse.w.body = notFoundJSON ++ [10] ∧
    notFoundResponse.w.body ≠ notFoundJSON := by
  decide

/-- C2, amended. For every configuration whose route table can be built (paths that
begin with a slash and hold no blank, tab, brace or percent sign, pairwise distinct, none
of them "/") and every request whose method is neither OPTIONS nor HEAD and whose path is
in canonical form, is not the path of an endpoint, does not lie under an endpoint path
that ends in a slash and is not such a path without its final slash: the response has
status 404, the header Content-Type: application/json next to the three CORS headers, and
a body that is the JSON object with the key "error" and the value "Endpoint not found. Add
it via the TUI!", followed by one line feed. -/
theorem C2_unknown_path_not_found (cfg : Config) (r : Request)
    (hr : cfg.Routable) (hopt : r.Method ≠ "OPTIONS") (hhead : r.Method ≠ "HEAD")
    (hclean : cleanPath r.Path = r.Path)
    (hnot : ∀ e ∈ cfg.Endpoints, e.Path ≠ r.Path)
    (hsub : ∀ e ∈ cfg.Endpoints, endsInSlash e.Path = true →
      strings.HasPrefix r.Path e.Path = false)
    (hslash : endsInSlash r.Path = true ∨ ∀ e ∈ cfg.Endpoints, e.Path ≠ r.Path ++ "/") :
    dispatch cfg r = .ok notFoundResponse ∧
      notFoundResponse.w.status = 404 ∧
      notFoundResponse.w.header.Get "Content-Type" = some "application/json" ∧
      notFoundResponse.w.body = notFoundJSON ++ [10] :=
  ⟨dispatch_default cfg hr r hopt hhead hclean hnot hsub hslash, by decide, by decide,
    by decide⟩

/-- C2, amended, at GET /missing against the one-endpoint /ping configuration. -/
theorem C2_witness :
    dispatch pingConfig { Method := "GET", Path := "/missing" } = .ok notFoundResponse ∧
      notFoundResponse.w.status = 404 ∧
      notFoundResponse.w.header.Get "Content-Type" = some "application/json" ∧
      notFoundResponse.w.body = notFoundJSON ++ [10] :=
  C2_unknown_path_not_found pingConfig { Method := "GET", Path := "/missing" } (by decide)
    (by decide) (by decide) (by decide) (by decide) (by decide) (by decide)

/-- C3, as stated, fails. The request OPTIONS /ping has a method that differs from the
method GET of the endpoint registered for /ping, and it is answered 200, not 405. -/
theorem C3_counterexample :
    pingEndpoint ∈ pingConfig.Endpoints ∧ "OPTIONS" ≠ pingEndpoint.Method ∧
    dispatch pingConfig { Method := "OPTIONS", Path := pingEndpoint.Path }
      = .ok optionsResponse ∧
    optionsResponse.w.status = 200 ∧ optionsResponse.w.status ≠ 405 := by
  decide

/-- C3, amended. For every configuration whose route table can be built, every endpoint of
it whose path is in canonical form, and every request to that path whose method differs
from the method of the endpoint and is not OPTIONS: the response has status 405 and an
empty body, and its headers are the three CORS headers alone, so neither the body nor a
header of the endpoint is written. -/
theorem C3_other_method_not_allowed (cfg : Config) (e : Endpoint) (method : String)
    (hr : cfg.Routable) (he : e ∈ cfg.Endpoints) (hm : method ≠ e.Method)
    (hopt : method ≠ "OPTIONS") (hclean : cleanPath e.Path = e.Path) :
    dispatch cfg { Method := method, Path := e.Path } = .ok methodNotAllowedResponse ∧
      methodNotAllowedResponse.w.status = 405 ∧
      methodNotAllowedResponse.w.body = [] ∧
      methodNotAllowedResponse.w.header = corsHeader := by
  refine ⟨?_, rfl, rfl, rfl⟩
  rw [dispatch_entry cfg hr e he method hopt hclean,
    handler_other e { Method := method, Path := e.Path } hm]
  rfl

/-- C3, amended, at POST /ping against the one-endpoint /ping configuration. -/
theorem C3_witness :
    dispatch pingConfig { Method := "POST", Path := "/ping" } = .ok methodNotAllowedResponse ∧
      methodNotAllowedResponse.w.status = 405 ∧
      methodNotAllowedResponse.w.body = [] ∧
      methodNotAllowedResponse.w.header = corsHeader :=
  C3_other_method_not_allowed pingConfig pingEndpoint "POST" (by decide) (by decide)
    (by decide) (by decide) (by decide)

/-- C4. For every server state, whatever its configuration and its route table, and every
path, `ServeHTTP` answers a request with method OPTIONS with status 200, an empty body and
exactly the three CORS headers, and takes no lock: the route table is not consulted. -/
theorem C4_options_short_circuit (s : Server) (path : String) :
    s.ServeHTTP { Method := "OPTIONS", Path := path } {} = .ok optionsResponse ∧
      optionsResponse.w.status = 200 ∧ optionsResponse.w.body = [] ∧
      optionsResponse.w.header =
        [("Access-Control-Allow-Origin", "*"),
         ("Access-Control-Allow-Methods", "GET, POST, PUT, DELETE, PATCH, OPTIONS"),
         ("Access-Control-Allow-Headers", "Content-Type, Authorization")] ∧
      optionsResponse.trace = [] :=
  ⟨ServeHTTP_options s path, rfl, rfl, rfl, rfl⟩

/-- C5: the code does not do what the claim says. For the configuration with endpoint A
(GET /items) before endpoint B (POST /items), `setupRoutes` does not complete: the second
`HandleFunc` for the pattern /items panics, after A and before the default handler were
registered, and no request is dispatched against a table in which B replaces A. The same
holds for every configuration in which two endpoints share a path. -/
theorem C5_shared_path_panics :
    ((Start shadowConfig).panicValue? = some (.multipleRegistrations "/items") ∧
      (Start shadowConfig).state.2 = [.Lock, .NewServeMux, .HandleFunc "/items",
        .HandleFunc "/items", .Unlock] ∧
      (dispatch shadowConfig { Method := "POST", Path := "/items" }).panicValue?
        = some (.multipleRegistrations "/items")) ∧
    (∀ cfg : Config, ¬ (cfg.Endpoints.map (fun e => e.Path)).Nodup →
      ∀ st, Start cfg ≠ .ok st) := by
  refine ⟨by decide, ?_⟩
  intro cfg hdup st hst
  exact hdup (Start_ok_necessary cfg st hst).2.1

/-- C6: the code does not do what the claim says. The configuration with the single
endpoint GET / has a path that begins with a slash and a body that is valid JSON, and
`setupRoutes` panics on it: the registration of the default handler under "/" meets the
pattern of the endpoint. The same holds for every configuration with an endpoint whose
path is "/". -/
theorem C6_root_path_panics :
    ((∀ e ∈ rootConfig.Endpoints,
        strings.HasPrefix e.Path "/" = true ∧ checkValid e.Response = true) ∧
      (Start rootConfig).panicValue? = some (.multipleRegistrations "/") ∧
      (Start rootConfig).state.2 = [.Lock, .NewServeMux, .HandleFunc "/", .HandleFunc "/",
        .Unlock]) ∧
    (∀ cfg : Config, (∃ e ∈ cfg.Endpoints, e.Path = "/") → ∀ st, Start cfg ≠ .ok st) := by
  refine ⟨by decide, ?_⟩
  rintro cfg ⟨e, he, hroot⟩ st hst
  exact (Start_ok_necessary cfg st hst).2.2 e he hroot

/-- C8. Whatever `Config.AddEndpoint` does on failure, as long as it appends the endpoint
when it succeeds: a form whose non-empty response text is not valid JSON makes
`addEndpoint` return an error and leave the model as it was (same endpoint sequence,
nothing sent on the channel); and whenever `addEndpoint` returns no error, exactly one
endpoint was appended, its body is valid JSON, and the new configuration was sent once. -/
theorem C8_invalid_json_rejected_atomically
    (add : Config → Endpoint → Config × Option String) (hadd : AppendsOnSuccess add)
    (id : String) (m : Model) :
    (m.inputs 3 ≠ "" → checkValid (bytesOf (m.inputs 3)) = false →
      ∃ err, Model.addEndpoint add id m = (m, some err)) ∧
    (∀ m2, Model.addEndpoint add id m = (m2, none) →
      ∃ e, m2.config.Endpoints = m.config.Endpoints ++ [e] ∧
        checkValid e.Response = true ∧
        m2.updateChan = m.updateChan ++ [m2.config]) := by
  constructor
  · intro hne hinv
    exact addEndpoint_invalid add id m hne hinv
  · intro m2 h
    obtain ⟨e, config, hc, hm2, _, hu⟩ := addEndpoint_ok add id m m2 h
    refine ⟨e, ?_, ?_, ?_⟩
    · rw [hm2]; exact hadd _ _ _ hc
    · obtain ⟨hv, hjs⟩ := (Unmarshal_ok_iff _ _).1 hu
      rw [hjs]
      exact checkValid_trimSpace _ hv
    · rw [hm2]

/-- C8, at a form with the response text `\x7bbad` (rejected, model unchanged) and at a form
with a valid response text (one endpoint appended to the /ping configuration, sent once). -/
theorem C8_witness :
    (∃ err, Model.addEndpoint Config.AddEndpoint "id-1" invalidForm
      = (invalidForm, some err)) ∧
    (∃ e, (Model.addEndpoint Config.AddEndpoint "id-2" validForm).1.config.Endpoints
        = pingConfig.Endpoints ++ [e] ∧
      checkValid e.Response = true ∧
      (Model.addEndpoint Config.AddEndpoint "id-2" validForm).1.updateChan
        = [] ++ [(Model.addEndpoint Config.AddEndpoint "id-2" validForm).1.config]) :=
  ⟨(C8_invalid_json_rejected_atomically Config.AddEndpoint AddEndpoint_appends "id-1"
      invalidForm).1 (by decide) (by decide),
   (C8_invalid_json_rejected_atomically Config.AddEndpoint AddEndpoint_appends "id-2"
      validForm).2 _ (Prod.ext rfl (by decide))⟩

/-- C9, as stated, fails. The form with the status text "2x" is accepted and the endpoint
it creates has status code 2, not 200: the scan reads the leading integer and leaves what
follows it unread. -/
theorem C9_counterexample :
    (Model.addEndpoint Config.AddEndpoint "id-1" form2x).2 = none ∧
    (Model.addEndpoint Config.AddEndpoint "id-1" form2x).1.config.Endpoints.map
      (fun e => e.StatusCode) = [2] := by
  decide

/-- C9, amended. For every form input accepted by `addEndpoint`, the status code of the
created endpoint is 200 when the status field is empty; it is `n` when the field starts
with the integer `n` (optional white space, optional sign, the longest run of decimal
digits, value inside the 64-bit integers), whatever follows the digits and whatever the
value of `n`; and it is 200 when the field starts with no such integer. -/
theorem C9_status_code_leading_integer
    (add : Config → Endpoint → Config × Option String) (hadd : AppendsOnSuccess add)
    (id : String) (m m2 : Model) (h : Model.addEndpoint add id m = (m2, none)) :
    ∃ e, m2.config.Endpoints = m.config.Endpoints ++ [e] ∧
      (m.inputs 2 = "" → e.StatusCode = 200) ∧
      (∀ n, LeadingInteger (m.inputs 2).data n → e.StatusCode = n) ∧
      ((∀ n, ¬ LeadingInteger (m.inputs 2).data n) → e.StatusCode = 200) := by
  obtain ⟨e, config, hc, hm2, hs, _⟩ := addEndpoint_ok add id m m2 h
  refine ⟨e, ?_, ?_, ?_, ?_⟩
  · rw [hm2]; exact hadd _ _ _ hc
  · intro h0
    rw [hs, if_neg (not_not.2 h0)]
  · intro n hn
    have hne : m.inputs 2 ≠ "" := by
      intro h0
      obtain ⟨ws, sgn, ds, rest, hf, _, _, hds, _⟩ := hn
      rw [h0] at hf
      have hnil : ws ++ sgn ++ ds ++ rest = [] := hf.symm
      simp only [List.append_eq_nil] at hnil
      exact hds hnil.1.2
    rw [hs, if_pos hne]
    unfold Sscanf_d
    rw [scanInt_of_leading _ n hn]
    rfl
  · intro hno
    rw [hs]
    by_cases hne : m.inputs 2 ≠ ""
    · rw [if_pos hne]
      unfold Sscanf_d
      cases hsc : scanInt (m.inputs 2).data with
      | none => rfl
      | some n => exact absurd (leading_of_scanInt _ n hsc) (hno n)
    · rw [if_neg hne]

/-- C9, amended, at the form with the status text "2x": the created endpoint has the
status code of the leading integer 2. -/
theorem C9_witness :
    ∃ e, (Model.addEndpoint Config.AddEndpoint "id-1" form2x).1.config.Endpoints
        = form2x.config.Endpoints ++ [e] ∧ e.StatusCode = 2 := by
  obtain ⟨e, h1, _, h2, _⟩ := C9_status_code_leading_integer Config.AddEndpoint
    AddEndpoint_appends "id-1" form2x _ (Prod.ext rfl (by decide))
  exact ⟨e, h1, h2 2 leadingInteger_2x⟩

/-- C10, as stated, fails. When `watchForUpdates` receives the one-endpoint /ping
configuration, the registrations of /ping and of the default handler both happen between
the acquire and the release of the write lock. -/
theorem C10_counterexample :
    (Server.watchForUpdates [pingConfig] ({ config := {}, mux := {} }, [])).state.2
      = [.Lock, .NewServeMux, .HandleFunc "/ping", .HandleFunc "/", .Unlock, .LogReload 1] ∧
    registersUnlocked false
      (Server.watchForUpdates [pingConfig] ({ config := {}, mux := {} }, [])).state.2
        = false := by
  decide

/-- C10, amended. For every configuration that `watchForUpdates` receives and whose route
table can be built, the reload completes and its trace is: write lock, new mux, one
registration per endpoint in order, the registration of the default handler, write unlock,
log line. Every registration happens while the write lock is held, and the lock is held
for the whole build. -/
theorem C10_build_under_write_lock (cfg : Config) (st : ServerState) (hr : cfg.Routable) :
    ∃ mux, Server.watchForUpdates [cfg] st
        = .ok ({ config := cfg, mux := mux },
            st.2 ++ [.Lock, .NewServeMux] ++ cfg.Endpoints.map (fun e => .HandleFunc e.Path)
              ++ [.HandleFunc "/", .Unlock, .LogReload cfg.Endpoints.length]) ∧
      registersUnlocked false
        ([.Lock, .NewServeMux] ++ cfg.Endpoints.map (fun e => Event.HandleFunc e.Path)
          ++ [.HandleFunc "/", .Unlock, .LogReload cfg.Endpoints.length]) = false := by
  obtain ⟨mux, h⟩ := reload_ok cfg st hr
  refine ⟨mux, by rw [watchForUpdates_one, h], ?_⟩
  simp only [List.append_assoc, List.cons_append, List.nil_append, registersUnlocked]
  exact registersUnlocked_held _ _

/-- C10, amended, at the reload of the two-endpoint configuration by a server that was
started with the /ping configuration. -/
theorem C10_witness :
    ∃ mux, Server.watchForUpdates [usersConfig] ({ config := pingConfig, mux := {} }, [])
        = .ok ({ config := usersConfig, mux := mux },
            [] ++ [.Lock, .NewServeMux]
              ++ usersConfig.Endpoints.map (fun e => .HandleFunc e.Path)
              ++ [.HandleFunc "/", .Unlock, .LogReload usersConfig.Endpoints.length]) ∧
      registersUnlocked false
        ([.Lock, .NewServeMux] ++ usersConfig.Endpoints.map (fun e => Event.HandleFunc e.Path)
          ++ [.HandleFunc "/", .Unlock, .LogReload usersConfig.Endpoints.length]) = false :=
  C10_build_under_write_lock usersConfig ({ config := pingConfig, mux := {} }, []) (by decide)

end MockSmith
